import Mathlib

/-!
Verification development for the `commander` declarative command-dispatch
engine (Go).  The Go sources are shallowly embedded: pure helper functions
become Lean functions on `List Char` / `String`, reflection-driven walks over
tagged structs become functions over explicit inductive models of the
application value, and fallible operations return `Except String _`.

Conventions:
* Machine integers are modelled as `Int` with explicit range checks where the
  source performs width-sized parses (`strconv.ParseInt(s, 10, w)`).
* Functions from the Go standard library that the sources call
  (`strconv.ParseInt`, `strconv.ParseBool`, `time.ParseDuration`,
  `encoding/json` marshalling of `[]string`, `flag.FlagSet.Parse`) are given
  executable models named `go...`, each documented with the scope of the
  model.
* Floating point, `map[string]string` and pointer-typed flag values are not
  needed by any verified statement and are omitted from the universe of
  modelled field kinds.
-/

/-! Character and list utilities shared by the embedded parsers. -/

/-- Splits a character list on every occurrence of `c`; mirror of Go
`strings.Split` (which never returns an empty slice list). -/
def splitOnChar (c : Char) : List Char → List (List Char)
  | [] => [[]]
  | x :: xs =>
    if x = c then [] :: splitOnChar c xs
    else match splitOnChar c xs with
      | [] => [[x]]
      | y :: ys => (x :: y) :: ys

/-- Splits on the first occurrence of `c` only; mirror of Go
`strings.SplitN(s, sep, 2)` restricted to a one-character separator. -/
def splitFirst (c : Char) : List Char → List Char × Option (List Char)
  | [] => ([], none)
  | x :: xs =>
    if x = c then ([], some xs)
    else
      match splitFirst c xs with
      | (pre, rest) => (x :: pre, rest)

/-- Whitespace characters recognised by the JSON scanner. -/
def isJsonWs (c : Char) : Bool :=
  c = ' ' ∨ c = '\t' ∨ c = '\n' ∨ c = '\r'

/-- Drops leading JSON whitespace. -/
def skipWs : List Char → List Char
  | [] => []
  | c :: rest => if isJsonWs c then skipWs rest else c :: rest

/-! Decimal digits: printing and parsing, with the round-trip lemma used by
the flag stringification law and the argument-coercion claims. -/

/-- Decimal digit character for a value below ten. -/
def digitChar : Nat → Char
  | 0 => '0' | 1 => '1' | 2 => '2' | 3 => '3' | 4 => '4'
  | 5 => '5' | 6 => '6' | 7 => '7' | 8 => '8' | 9 => '9'
  | _ => '?'

/-- Numeric value of a decimal digit character, if it is one. -/
def digitVal (c : Char) : Option Nat :=
  if '0' ≤ c ∧ c ≤ '9' then some (c.toNat - '0'.toNat) else none

/-- Fuel-driven digit loop; the fuel only needs to exceed the value,
which shrinks by a factor of ten per step. -/
def natToDigitsGo : Nat → Nat → List Char → List Char
  | 0, _, tail => tail
  | fuel + 1, n, tail =>
    if n < 10 then digitChar n :: tail
    else natToDigitsGo fuel (n / 10) (digitChar (n % 10) :: tail)

/-- Big-endian decimal digits of a natural number, prepended to `tail`;
mirror of the digit loop inside Go `strconv.FormatInt`. -/
def natToDigits (n : Nat) (tail : List Char) : List Char :=
  natToDigitsGo (n + 1) n tail

/-- Accumulating decimal parser over digit characters; fails on the first
non-digit. -/
def parseDigits : List Char → Nat → Option Nat
  | [], acc => some acc
  | c :: rest, acc =>
    match digitVal c with
    | some d => parseDigits rest (acc * 10 + d)
    | none => none

theorem digitVal_digitChar : ∀ d < 10, digitVal (digitChar d) = some d := by decide

/-- Weight of the leading accumulator after printing `n`: ten to the number
of digits of `n`. -/
def tenPow (n : Nat) : Nat :=
  if h : n < 10 then 10 else 10 * tenPow (n / 10)
  termination_by n
  decreasing_by
    exact Nat.div_lt_self (Nat.lt_of_lt_of_le (by norm_num) (Nat.le_of_not_lt h)) (by norm_num)

theorem parseDigits_natToDigitsGo :
    ∀ fuel n, n < fuel →
      ∀ acc tail, parseDigits (natToDigitsGo fuel n tail) acc
        = parseDigits tail (acc * tenPow n + n) := by
  intro fuel
  induction fuel with
  | zero => omega
  | succ fuel ih =>
    intro n hfuel acc tail
    rw [natToDigitsGo]
    by_cases h : n < 10
    · rw [tenPow]
      simp only [h, if_true, dite_true]
      simp [parseDigits, digitVal_digitChar n h]
    · rw [tenPow]
      simp only [h, if_false, dite_false]
      have hd : n / 10 < n :=
        Nat.div_lt_self (Nat.lt_of_lt_of_le (by norm_num) (Nat.le_of_not_lt h)) (by norm_num)
      rw [ih (n / 10) (by omega) acc (digitChar (n % 10) :: tail)]
      have hm : n % 10 < 10 := Nat.mod_lt _ (by norm_num)
      simp only [parseDigits, digitVal_digitChar (n % 10) hm]
      congr 1
      have := Nat.div_add_mod n 10
      ring_nf
      omega

theorem parseDigits_natToDigits (n : Nat) :
    ∀ acc tail, parseDigits (natToDigits n tail) acc = parseDigits tail (acc * tenPow n + n) :=
  parseDigits_natToDigitsGo (n + 1) n (Nat.lt_succ_self n)

theorem parseDigits_roundtrip (n : Nat) : parseDigits (natToDigits n []) 0 = some n := by
  rw [parseDigits_natToDigits n 0 []]
  simp [parseDigits]

theorem natToDigitsGo_ne_nil :
    ∀ fuel n, n < fuel → ∀ tail, natToDigitsGo fuel n tail ≠ [] := by
  intro fuel
  induction fuel with
  | zero => omega
  | succ fuel ih =>
    intro n hfuel tail
    rw [natToDigitsGo]
    by_cases h : n < 10
    · simp [h]
    · simp only [h, if_false]
      have hd : n / 10 < n :=
        Nat.div_lt_self (Nat.lt_of_lt_of_le (by norm_num) (Nat.le_of_not_lt h)) (by norm_num)
      exact ih (n / 10) (by omega) _

theorem natToDigits_ne_nil (n : Nat) : ∀ tail, natToDigits n tail ≠ [] :=
  natToDigitsGo_ne_nil (n + 1) n (Nat.lt_succ_self n)

theorem natToDigitsGo_all_digits :
    ∀ fuel n tail c, c ∈ natToDigitsGo fuel n tail →
      c ∈ tail ∨ ∃ d, d < 10 ∧ c = digitChar d := by
  intro fuel
  induction fuel with
  | zero =>
    intro n tail c hc
    exact Or.inl hc
  | succ fuel ih =>
    intro n tail c hc
    rw [natToDigitsGo] at hc
    by_cases h : n < 10
    · simp only [h, if_true, List.mem_cons] at hc
      rcases hc with hc | hc
      · exact Or.inr ⟨n, h, hc⟩
      · exact Or.inl hc
    · simp only [h, if_false] at hc
      rcases ih (n / 10) _ c hc with hmem | hdig
      · rcases List.mem_cons.mp hmem with hc2 | hc2
        · exact Or.inr ⟨n % 10, Nat.mod_lt _ (by norm_num), hc2⟩
        · exact Or.inl hc2
      · exact Or.inr hdig

theorem natToDigits_all_digits (n : Nat) :
    ∀ tail c, c ∈ natToDigits n tail → c ∈ tail ∨ ∃ d, d < 10 ∧ c = digitChar d :=
  fun tail c hc => natToDigitsGo_all_digits (n + 1) n tail c hc

/-! Models of the Go standard-library string conversions used by
`utils.ParseString` and the flag machinery. -/

/-- Strips a single leading sign character, reporting whether it was a
minus; first step of Go `strconv.ParseInt`. -/
def stripSign : List Char → Bool × List Char
  | [] => (false, [])
  | c :: rest =>
    if c = '-' then (true, rest) else if c = '+' then (false, rest) else (false, c :: rest)

/-- Model of Go `strconv.ParseInt(s, 10, bitSize)`: optional sign, a
non-empty run of decimal digits, and a signed range check for the requested
bit width. -/
def goParseIntChars (bitSize : Nat) (s : List Char) : Except String Int :=
  match stripSign s with
  | (neg, digits) =>
    if digits = [] then .error "invalid syntax"
    else
      match parseDigits digits 0 with
      | none => .error "invalid syntax"
      | some n =>
        let v : Int := if neg then -(n : Int) else (n : Int)
        if -(2 ^ (bitSize - 1) : Int) ≤ v ∧ v < 2 ^ (bitSize - 1) then .ok v
        else .error "value out of range"

/-- Model of Go `strconv.ParseUint(s, 10, bitSize)`: no sign is accepted. -/
def goParseUintChars (bitSize : Nat) (s : List Char) : Except String Nat :=
  if s = [] then .error "invalid syntax"
  else
    match parseDigits s 0 with
    | none => .error "invalid syntax"
    | some n => if n < 2 ^ bitSize then .ok n else .error "value out of range"

/-- String-level wrapper for `goParseIntChars`. -/
def goParseInt (bitSize : Nat) (s : String) : Except String Int :=
  goParseIntChars bitSize s.data

/-- String-level wrapper for `goParseUintChars`. -/
def goParseUint (bitSize : Nat) (s : String) : Except String Nat :=
  goParseUintChars bitSize s.data

/-- Model of Go `strconv.ParseBool`: the exact set of accepted literals. -/
def goParseBool (s : String) : Except String Bool :=
  if s = "1" ∨ s = "t" ∨ s = "T" ∨ s = "true" ∨ s = "TRUE" ∨ s = "True" then .ok true
  else if s = "0" ∨ s = "f" ∨ s = "F" ∨ s = "false" ∨ s = "FALSE" ∨ s = "False" then .ok false
  else .error "invalid syntax"

/-- Decimal rendering of an integer; model of the `%v` formatting that
`utils.StringifyValue` applies to signed integer fields. -/
def intToChars (i : Int) : List Char :=
  if i < 0 then '-' :: natToDigits i.natAbs [] else natToDigits i.toNat []

/-- Decimal rendering of a natural; model of `%v` on unsigned fields. -/
def natToChars (n : Nat) : List Char := natToDigits n []

theorem digitChar_not_sign : ∀ d, d < 10 → digitChar d ≠ '-' ∧ digitChar d ≠ '+' := by decide

theorem goParseUintChars_roundtrip (n : Nat) (bitSize : Nat) (h : n < 2 ^ bitSize) :
    goParseUintChars bitSize (natToChars n) = .ok n := by
  unfold goParseUintChars natToChars
  simp only [natToDigits_ne_nil n [], if_false, parseDigits_roundtrip]
  simp [h]

theorem stripSign_digits (n : Nat) : stripSign (natToDigits n []) = (false, natToDigits n []) := by
  rcases hhead : natToDigits n [] with _ | ⟨c, rest⟩
  · exact absurd hhead (natToDigits_ne_nil n [])
  · have hcdig : c ∈ natToDigits n [] := by rw [hhead]; exact List.mem_cons_self _ _
    rcases natToDigits_all_digits n [] c hcdig with hmem | ⟨d, hd, hcd⟩
    · exact absurd hmem (List.not_mem_nil c)
    · have hsign := digitChar_not_sign d hd
      have hc1 : c ≠ '-' := hcd ▸ hsign.1
      have hc2 : c ≠ '+' := hcd ▸ hsign.2
      simp [stripSign, hc1, hc2]

theorem goParseIntChars_roundtrip (i : Int) (bitSize : Nat)
    (h1 : -(2 ^ (bitSize - 1) : Int) ≤ i) (h2 : i < 2 ^ (bitSize - 1)) :
    goParseIntChars bitSize (intToChars i) = .ok i := by
  unfold intToChars
  by_cases hneg : i < 0
  · simp only [hneg, if_true]
    unfold goParseIntChars
    have hss : stripSign ('-' :: natToDigits i.natAbs []) = (true, natToDigits i.natAbs []) := by
      simp [stripSign]
    rw [hss]
    simp only [natToDigits_ne_nil i.natAbs [], if_false, parseDigits_roundtrip]
    have habs : -((i.natAbs : Nat) : Int) = i := by omega
    simp only [if_true, Bool.true_eq, habs]
    simp [h1, h2, habs]
  · simp only [hneg, if_false]
    unfold goParseIntChars
    rw [stripSign_digits]
    simp only [natToDigits_ne_nil i.toNat [], if_false, parseDigits_roundtrip]
    have htn : ((i.toNat : Nat) : Int) = i := by omega
    simp only [htn]
    simp [h1, h2, htn]

/-! Model of `encoding/json` marshalling and unmarshalling of `[]string`,
which `runCommand` uses to pack trailing argument tokens and
`utils.ParseString` uses to decode sequence-typed values. -/

/-- Lowercase hexadecimal digit character, as Go emits in escapes. -/
def hexDigitChar : Nat → Char
  | 0 => '0' | 1 => '1' | 2 => '2' | 3 => '3' | 4 => '4'
  | 5 => '5' | 6 => '6' | 7 => '7' | 8 => '8' | 9 => '9'
  | 10 => 'a' | 11 => 'b' | 12 => 'c' | 13 => 'd' | 14 => 'e' | 15 => 'f'
  | _ => '?'

/-- Hexadecimal value of a digit character (both cases accepted, as in the
Go JSON scanner). -/
def hexVal (c : Char) : Option Nat :=
  if '0' ≤ c ∧ c ≤ '9' then some (c.toNat - '0'.toNat)
  else if 'a' ≤ c ∧ c ≤ 'f' then some (c.toNat - 'a'.toNat + 10)
  else if 'A' ≤ c ∧ c ≤ 'F' then some (c.toNat - 'A'.toNat + 10)
  else none

/-- Value of a four-digit hexadecimal escape. -/
def hex4 (a b c d : Char) : Option Nat :=
  match hexVal a, hexVal b, hexVal c, hexVal d with
  | some x, some y, some z, some w => some (((x * 16 + y) * 16 + z) * 16 + w)
  | _, _, _, _ => none

/-- JSON escape of a single character as emitted by Go `encoding/json`
with its default HTML escaping: quotes, backslashes, the three named control
escapes, `\u00xx` for the remaining control characters, and `<`,
`>`, `&`, ` `, ` ` for the HTML-sensitive code points. -/
def escChar (c : Char) : List Char :=
  if c = '"' then ['\\', '"']
  else if c = '\\' then ['\\', '\\']
  else if c = '\n' then ['\\', 'n']
  else if c = '\r' then ['\\', 'r']
  else if c = '\t' then ['\\', 't']
  else if c.toNat < 0x20 then
    ['\\', 'u', '0', '0', hexDigitChar (c.toNat / 16), hexDigitChar (c.toNat % 16)]
  else if c = '<' then ['\\', 'u', '0', '0', '3', 'c']
  else if c = '>' then ['\\', 'u', '0', '0', '3', 'e']
  else if c = '&' then ['\\', 'u', '0', '0', '2', '6']
  else if c.toNat = 0x2028 then ['\\', 'u', '2', '0', '2', '8']
  else if c.toNat = 0x2029 then ['\\', 'u', '2', '0', '2', '9']
  else [c]

/-- Body of a JSON string literal: the escaped characters followed by the
closing quote. -/
def quoteBody (s : List Char) : List Char :=
  s.foldr (fun c acc => escChar c ++ acc) ['"']

/-- Full JSON string literal for `s`. -/
def quoteChars (s : List Char) : List Char :=
  '"' :: quoteBody s

/-- Named single-character escapes accepted after a backslash by the JSON
scanner. -/
def escDecode (e : Char) : Option Char :=
  if e = '"' then some '"'
  else if e = '\\' then some '\\'
  else if e = '/' then some '/'
  else if e = 'n' then some '\n'
  else if e = 'r' then some '\r'
  else if e = 't' then some '\t'
  else if e = 'b' then some (Char.ofNat 0x08)
  else if e = 'f' then some (Char.ofNat 0x0C)
  else none

/-- Decodes the body of a JSON string literal (the input starts right after
the opening quote), returning the decoded characters and the input remaining
after the closing quote.  Surrogate-pair recombination is not modelled; the
encoder above never emits lone surrogate escapes. -/
def decChars : List Char → Option (List Char × List Char)
  | [] => none
  | c :: rest =>
    if c = '"' then some ([], rest)
    else if c = '\\' then
      match rest with
      | [] => none
      | e :: rest2 =>
        if e = 'u' then
          match rest2 with
          | a :: b :: c2 :: d :: rest3 =>
            match hex4 a b c2 d with
            | some n =>
              match decChars rest3 with
              | some (s, r) => some (Char.ofNat n :: s, r)
              | none => none
            | none => none
          | _ => none
        else
          match escDecode e with
          | some ch =>
            match decChars rest2 with
            | some (s, r) => some (ch :: s, r)
            | none => none
          | none => none
    else if c.toNat < 0x20 then none
    else
      match decChars rest with
      | some (s, r) => some (c :: s, r)
      | none => none

theorem hexVal_hexDigitChar : ∀ v < 16, hexVal (hexDigitChar v) = some v := by decide

theorem decChars_escChar (c : Char) (t : List Char) :
    decChars (escChar c ++ t) = Option.map (fun p => (c :: p.1, p.2)) (decChars t) := by
  unfold escChar
  by_cases h1 : c = '"'
  · subst h1
    rw [if_pos rfl, List.cons_append, List.cons_append, List.nil_append, decChars.eq_def]
    cases hdec : decChars t with
    | none => simp [escDecode, hdec]
    | some p => simp [escDecode, hdec]
  · rw [if_neg h1]
    by_cases h2 : c = '\\'
    · subst h2
      rw [if_pos rfl, List.cons_append, List.cons_append, List.nil_append, decChars.eq_def]
      cases hdec : decChars t with
      | none => simp [escDecode, hdec]
      | some p => simp [escDecode, hdec]
    · rw [if_neg h2]
      by_cases h3 : c = '\n'
      · subst h3
        rw [if_pos rfl, List.cons_append, List.cons_append, List.nil_append, decChars.eq_def]
        cases hdec : decChars t with
        | none => simp [escDecode, hdec]
        | some p => simp [escDecode, hdec]
      · rw [if_neg h3]
        by_cases h4 : c = '\r'
        · subst h4
          rw [if_pos rfl, List.cons_append, List.cons_append, List.nil_append, decChars.eq_def]
          cases hdec : decChars t with
          | none => simp [escDecode, hdec]
          | some p => simp [escDecode, hdec]
        · rw [if_neg h4]
          by_cases h5 : c = '\t'
          · subst h5
            rw [if_pos rfl, List.cons_append, List.cons_append, List.nil_append, decChars.eq_def]
            cases hdec : decChars t with
            | none => simp [escDecode, hdec]
            | some p => simp [escDecode, hdec]
          · rw [if_neg h5]
            by_cases h6 : c.toNat < 0x20
            · rw [if_pos h6]
              have hdiv : c.toNat / 16 < 16 := by omega
              have hmod : c.toNat % 16 < 16 := Nat.mod_lt _ (by norm_num)
              simp only [List.cons_append, List.nil_append]
              rw [decChars.eq_def]
              have hhex : hex4 '0' '0' (hexDigitChar (c.toNat / 16)) (hexDigitChar (c.toNat % 16))
                  = some c.toNat := by
                unfold hex4
                rw [hexVal_hexDigitChar _ hdiv, hexVal_hexDigitChar _ hmod]
                have : hexVal '0' = some 0 := by decide
                rw [this]
                dsimp only
                have hdm := Nat.div_add_mod c.toNat 16
                congr 1
                omega
              cases hdec : decChars t with
              | none => simp [hhex, hdec]
              | some p => simp [hhex, hdec, Char.ofNat_toNat]
            · rw [if_neg h6]
              by_cases h7 : c = '<'
              · subst h7
                simp only [if_pos rfl, List.cons_append, List.nil_append]
                rw [decChars.eq_def]
                cases hdec : decChars t with
                | none => simp [hex4, hexVal, hdec]
                | some p => simp [hex4, hexVal, hdec]
              · rw [if_neg h7]
                by_cases h8 : c = '>'
                · subst h8
                  simp only [if_pos rfl, List.cons_append, List.nil_append]
                  rw [decChars.eq_def]
                  cases hdec : decChars t with
                  | none => simp [hex4, hexVal, hdec]
                  | some p => simp [hex4, hexVal, hdec]
                · rw [if_neg h8]
                  by_cases h9 : c = '&'
                  · subst h9
                    simp only [if_pos rfl, List.cons_append, List.nil_append]
                    rw [decChars.eq_def]
                    cases hdec : decChars t with
                    | none => simp [hex4, hexVal, hdec]
                    | some p => simp [hex4, hexVal, hdec]
                  · rw [if_neg h9]
                    by_cases h10 : c.toNat = 0x2028
                    · rw [if_pos h10]
                      simp only [List.cons_append, List.nil_append]
                      rw [decChars.eq_def]
                      have hhex : hex4 '2' '0' '2' '8' = some 0x2028 := by decide
                      have hco : Char.ofNat 0x2028 = c := by
                        rw [← h10]; exact Char.ofNat_toNat c
                      cases hdec : decChars t with
                      | none => simp [hhex, hdec]
                      | some p =>
                        simp [hhex, hdec]
                        exact hco
                    · rw [if_neg h10]
                      by_cases h11 : c.toNat = 0x2029
                      · rw [if_pos h11]
                        simp only [List.cons_append, List.nil_append]
                        rw [decChars.eq_def]
                        have hhex : hex4 '2' '0' '2' '9' = some 0x2029 := by decide
                        have hco : Char.ofNat 0x2029 = c := by
                          rw [← h11]; exact Char.ofNat_toNat c
                        cases hdec : decChars t with
                        | none => simp [hhex, hdec]
                        | some p =>
                          simp [hhex, hdec]
                          exact hco
                      · rw [if_neg h11]
                        simp only [List.cons_append, List.nil_append]
                        rw [decChars.eq_def]
                        cases hdec : decChars t with
                        | none => simp [h1, h2, h6, hdec]
                        | some p => simp [h1, h2, h6, hdec]

theorem decChars_quoteBody (s : List Char) (t : List Char) :
    decChars (quoteBody s ++ t) = some (s, t) := by
  induction s with
  | nil =>
    rw [quoteBody]
    simp [decChars.eq_def]
  | cons c s ih =>
    have hq : quoteBody (c :: s) = escChar c ++ quoteBody s := by
      simp [quoteBody]
    rw [hq, List.append_assoc, decChars_escChar, ih]
    rfl

theorem skipWs_length_le (cs : List Char) : (skipWs cs).length ≤ cs.length := by
  induction cs with
  | nil => simp [skipWs]
  | cons c rest ih =>
    rw [skipWs]
    split
    · exact Nat.le_trans ih (Nat.le_succ _)
    · simp

theorem skipWs_not_ws (c : Char) (t : List Char) (h : ¬ isJsonWs c) :
    skipWs (c :: t) = c :: t := by
  rw [skipWs, if_neg h]

/-- Decodes a comma-separated run of JSON string literals terminated by a
closing bracket; the input starts at the first element and the fuel bounds
the number of elements. -/
def decElemsGo : Nat → List Char → Option (List String × List Char)
  | 0, _ => none
  | fuel + 1, cs =>
    match skipWs cs with
    | '"' :: cs2 =>
      match decChars cs2 with
      | some (s, r) =>
        match skipWs r with
        | ',' :: r2 =>
          match decElemsGo fuel r2 with
          | some (l, rr) => some ((⟨s⟩ : String) :: l, rr)
          | none => none
        | ']' :: r2 => some ([(⟨s⟩ : String)], r2)
        | _ => none
      | none => none
    | _ => none

/-- Element loop entry point: each element consumes at least one input
character, so the input length bounds the element count. -/
def decElems (cs : List Char) : Option (List String × List Char) :=
  decElemsGo (cs.length + 1) cs

/-- Model of Go `json.Marshal` applied to a (non-nil) `[]string` value. -/
def jsonEncodeStringListChars : List String → List Char
  | [] => ['[', ']']
  | x :: rest => '[' :: (quoteChars x.data ++ encodeElemsTail rest)
where
  encodeElemsTail : List String → List Char
  | [] => [']']
  | x :: rest => ',' :: (quoteChars x.data ++ encodeElemsTail rest)

/-- String-level wrapper for the `[]string` JSON encoder. -/
def jsonEncodeStringList (l : List String) : String :=
  ⟨jsonEncodeStringListChars l⟩

/-- Model of Go `json.Unmarshal` of a JSON text into a `[]string`
destination: accepts a JSON array of strings (or `null`, which leaves the
destination empty) and rejects trailing non-whitespace. -/
def jsonDecodeStringList (s : String) : Except String (List String) :=
  match skipWs s.data with
  | '[' :: cs =>
    match skipWs cs with
    | ']' :: r =>
      if skipWs r = [] then .ok []
      else .error "invalid character after top-level value"
    | _ =>
      match decElems cs with
      | some (l, r) =>
        if skipWs r = [] then .ok l
        else .error "invalid character after top-level value"
      | none => .error "cannot unmarshal into string slice"
  | 'n' :: 'u' :: 'l' :: 'l' :: r =>
    if skipWs r = [] then .ok []
    else .error "invalid character after top-level value"
  | _ => .error "cannot unmarshal into string slice"

set_option maxHeartbeats 1600000 in
theorem escChar_ne_nil (c : Char) : escChar c ≠ [] := by
  intro h
  rw [escChar] at h
  split_ifs at h

theorem quoteBody_length (s : List Char) : 1 ≤ (quoteBody s).length := by
  induction s with
  | nil => simp [quoteBody]
  | cons c s ih =>
    have h : quoteBody (c :: s) = escChar c ++ quoteBody s := by simp [quoteBody]
    rw [h]
    simp only [List.length_append]
    omega

theorem encodeElemsTail_length (rest : List String) :
    rest.length + 1 ≤ (jsonEncodeStringListChars.encodeElemsTail rest).length := by
  induction rest with
  | nil => simp [jsonEncodeStringListChars.encodeElemsTail]
  | cons y rest ih =>
    rw [jsonEncodeStringListChars.encodeElemsTail]
    have hq := quoteBody_length y.data
    simp only [quoteChars, List.length_cons, List.length_append]
    omega

theorem decElemsGo_encode (rest : List String) :
    ∀ (fuel : Nat), rest.length < fuel → ∀ (x : String) (t : List Char),
      decElemsGo fuel (quoteChars x.data ++ jsonEncodeStringListChars.encodeElemsTail rest ++ t)
        = some (x :: rest, t) := by
  induction rest with
  | nil =>
    intro fuel hf x t
    match fuel, hf with
    | fuel + 1, _ =>
      have hin : quoteChars x.data ++ jsonEncodeStringListChars.encodeElemsTail [] ++ t
          = '"' :: (quoteBody x.data ++ (']' :: t)) := by
        simp [quoteChars, jsonEncodeStringListChars.encodeElemsTail]
      rw [hin, decElemsGo, skipWs_not_ws '"' _ (by decide)]
      simp only [decChars_quoteBody, skipWs_not_ws ']' _ (by decide)]
  | cons y rest ih =>
    intro fuel hf x t
    match fuel, hf with
    | fuel + 1, hf =>
      have hin : quoteChars x.data ++ jsonEncodeStringListChars.encodeElemsTail (y :: rest) ++ t
          = '"' :: (quoteBody x.data ++ (',' ::
              (quoteChars y.data ++ (jsonEncodeStringListChars.encodeElemsTail rest ++ t)))) := by
        simp [quoteChars, jsonEncodeStringListChars.encodeElemsTail]
      rw [hin, decElemsGo, skipWs_not_ws '"' _ (by decide)]
      have ihy := ih fuel (by simp at hf ⊢; omega) y t
      rw [List.append_assoc] at ihy
      simp only [decChars_quoteBody, skipWs_not_ws ',' _ (by decide), ihy]

theorem decElems_encode (rest : List String) (x : String) (t : List Char) :
    decElems (quoteChars x.data ++ jsonEncodeStringListChars.encodeElemsTail rest ++ t)
      = some (x :: rest, t) := by
  unfold decElems
  apply decElemsGo_encode
  have h1 := encodeElemsTail_length rest
  simp only [List.length_append]
  omega

theorem jsonDecodeStringList_encode (l : List String) :
    jsonDecodeStringList (jsonEncodeStringList l) = .ok l := by
  cases l with
  | nil => rfl
  | cons x rest =>
    unfold jsonDecodeStringList jsonEncodeStringList
    have hdata : (⟨jsonEncodeStringListChars (x :: rest)⟩ : String).data
        = '[' :: ('"' :: (quoteBody x.data ++ jsonEncodeStringListChars.encodeElemsTail rest)) := by
      simp [jsonEncodeStringListChars, quoteChars]
    rw [hdata, skipWs_not_ws '[' _ (by decide)]
    have hd := decElems_encode rest x []
    rw [List.append_nil] at hd
    have harg : quoteChars x.data ++ jsonEncodeStringListChars.encodeElemsTail rest
        = '"' :: (quoteBody x.data ++ jsonEncodeStringListChars.encodeElemsTail rest) := by
      simp [quoteChars]
    rw [harg] at hd
    simp only [skipWs_not_ws '"' _ (by decide), hd]
    rfl

/-! Model of Go `time.ParseDuration`, the fallback parse that
`utils.ParseString` applies to 64-bit signed integer fields. -/

/-- Leading run of decimal digits and the remainder; mirror of the
`leadingInt` scan in Go `time.ParseDuration`. -/
def spanDigits : List Char → List Char × List Char
  | [] => ([], [])
  | c :: rest =>
    if '0' ≤ c ∧ c ≤ '9' then
      match spanDigits rest with
      | (ds, r) => (c :: ds, r)
    else ([], c :: rest)

/-- Leading run of unit characters (anything other than a dot or digit). -/
def spanUnit : List Char → List Char × List Char
  | [] => ([], [])
  | c :: rest =>
    if c = '.' ∨ ('0' ≤ c ∧ c ≤ '9') then ([], c :: rest)
    else
      match spanUnit rest with
      | (u, r) => (c :: u, r)

theorem spanDigits_length (s : List Char) :
    (spanDigits s).1.length + (spanDigits s).2.length = s.length := by
  induction s with
  | nil => simp [spanDigits]
  | cons c rest ih =>
    rw [spanDigits]
    split
    · rcases h : spanDigits rest with ⟨ds, r⟩
      rw [h] at ih
      simp at ih ⊢
      omega
    · simp

theorem spanUnit_length (s : List Char) :
    (spanUnit s).1.length + (spanUnit s).2.length = s.length := by
  induction s with
  | nil => simp [spanUnit]
  | cons c rest ih =>
    rw [spanUnit]
    split
    · simp
    · rcases h : spanUnit rest with ⟨u, r⟩
      rw [h] at ih
      simp at ih ⊢
      omega

/-- Nanoseconds per unit; the unit table of Go `time.ParseDuration`
(`µ` U+00B5 and `μ` U+03BC both accepted for microseconds). -/
def durUnit (u : List Char) : Option Nat :=
  if u = ['n', 's'] then some 1
  else if u = ['u', 's'] then some 1000
  else if u = ['µ', 's'] then some 1000
  else if u = ['μ', 's'] then some 1000
  else if u = ['m', 's'] then some 1000000
  else if u = ['s'] then some 1000000000
  else if u = ['m'] then some 60000000000
  else if u = ['h'] then some 3600000000000
  else none

/-- Parses the unit of one duration component and scales the numeric part.
The fractional contribution is computed with exact integer arithmetic
`f * unit / scale`; Go uses a `float64` product here, which agrees on all
inputs the verified statements touch. -/
def durUnitPart (s : List Char) (v f scale : Nat) : Except String (Nat × List Char) :=
  match spanUnit s with
  | ([], _) => .error "missing unit in duration"
  | (u, s4) =>
    match durUnit u with
    | none => .error "unknown unit in duration"
    | some unit => .ok (v * unit + f * unit / scale, s4)

/-- Parses the optional fraction and the unit once the leading digits `ds`
and the remainder `s1` of one duration component are known. -/
def durNum (ds s1 : List Char) : Except String (Nat × List Char) :=
  match s1 with
  | '.' :: s2 =>
    if ds = [] ∧ (spanDigits s2).1 = [] then .error "invalid duration"
    else durUnitPart (spanDigits s2).2 ((parseDigits ds 0).getD 0)
      ((parseDigits (spanDigits s2).1 0).getD 0) (10 ^ (spanDigits s2).1.length)
  | _ =>
    if ds = [] then .error "invalid duration"
    else durUnitPart s1 ((parseDigits ds 0).getD 0) 0 1

/-- Parses one `<number>[.<fraction>]<unit>` component of a duration. -/
def durStep (s : List Char) : Except String (Nat × List Char) :=
  match s with
  | [] => .error "invalid duration"
  | c :: _ =>
    if ¬ (c = '.' ∨ ('0' ≤ c ∧ c ≤ '9')) then .error "invalid duration"
    else durNum (spanDigits s).1 (spanDigits s).2

/-- Accumulating loop over duration components; each component consumes at
least its unit character, so the input length bounds the iteration count. -/
def parseDurLoopGo : Nat → List Char → Nat → Except String Nat
  | 0, _, _ => .error "invalid duration"
  | fuel + 1, s, acc =>
    if s = [] then .ok acc
    else
      match durStep s with
      | .error e => .error e
      | .ok (add, rest) => parseDurLoopGo fuel rest (acc + add)

/-- Entry point of the duration component loop. -/
def parseDurLoop (s : List Char) (acc : Nat) : Except String Nat :=
  parseDurLoopGo (s.length + 1) s acc

/-- Model of Go `time.ParseDuration`: optional sign, the special literal
`"0"`, then one or more number/unit components summed in nanoseconds.
Go checks for 64-bit overflow while accumulating; the model checks the
final sum, which agrees wherever Go succeeds. -/
def goParseDurationChars (s : List Char) : Except String Int :=
  match stripSign s with
  | (neg, s1) =>
    if s1 = ['0'] then .ok 0
    else if s1 = [] then .error "invalid duration"
    else
      match parseDurLoop s1 0 with
      | .error e => .error e
      | .ok d =>
        if d < 2 ^ 63 then .ok (if neg then -(d : Int) else (d : Int))
        else .error "invalid duration out of range"

/-- String-level wrapper for the duration parser. -/
def goParseDuration (s : String) : Except String Int :=
  goParseDurationChars s.data

/-! Embedding of `utils.ParseString`, `utils.StringifyValue` and
`utils.SetField` (src/helpers.go).  The universe of field kinds covers the
kinds exercised by the verified statements: booleans, strings, every signed
and unsigned integer width, and string slices.  Go `int`/`uint` are parsed
at 64 bits by the source, so they are modelled as 64-bit; `time.Duration`
is `int64` at the bit level and shares the `intv` representation.  Float,
map and pointer kinds appear in the source but are not touched by any
verified statement and are omitted. -/

inductive GoKind where
  | bool | str
  | int | int8 | int16 | int32 | int64
  | uint | uint8 | uint16 | uint32 | uint64
  | slice
deriving DecidableEq, Repr

inductive GoValue where
  | bool (b : Bool)
  | str (s : String)
  | intv (i : Int)
  | uintv (n : Nat)
  | strList (l : List String)
deriving DecidableEq, Repr

/-- Parse bit width of a signed kind (`int` is parsed with bit size 64 in
the source). -/
def GoKind.intBits : GoKind → Nat
  | .int8 => 8 | .int16 => 16 | .int32 => 32 | _ => 64

/-- Parse bit width of an unsigned kind. -/
def GoKind.uintBits : GoKind → Nat
  | .uint8 => 8 | .uint16 => 16 | .uint32 => 32 | _ => 64

/-- Translated from `utils.ParseString` (src/helpers.go): kind-directed
coercion of one string into a typed value.  The `int64` case tries a
base-10 integer parse first and falls back to a duration parse; no other
numeric case consults the duration parser. -/
def ParseString (t : GoKind) (value : String) : Except String GoValue :=
  match t with
  | .bool =>
    match goParseBool value with
    | .ok b => .ok (.bool b)
    | .error e => .error ("Failed to parse string to bool: " ++ e)
  | .str => .ok (.str value)
  | .int | .int8 | .int16 | .int32 =>
    match goParseInt t.intBits value with
    | .ok i => .ok (.intv i)
    | .error e => .error ("Failed to parse string to int: " ++ e)
  | .int64 =>
    match goParseInt 64 value with
    | .ok i => .ok (.intv i)
    | .error _ =>
      match goParseDuration value with
      | .ok d => .ok (.intv d)
      | .error e => .error ("Failed to parse string to int64 or time.Duration: " ++ e)
  | .uint | .uint8 | .uint16 | .uint32 | .uint64 =>
    match goParseUint t.uintBits value with
    | .ok n => .ok (.uintv n)
    | .error e => .error ("Failed to parse string to uint: " ++ e)
  | .slice =>
    match jsonDecodeStringList value with
    | .ok l => .ok (.strList l)
    | .error e => .error ("Failed to parse string to []string: " ++ e)

/-- Zero value of each kind (Go's zero value for the field type; the nil /
empty distinction of slices is flattened to the empty list). -/
def zeroValue : GoKind → GoValue
  | .bool => .bool false
  | .str => .str ""
  | .int | .int8 | .int16 | .int32 | .int64 => .intv 0
  | .uint | .uint8 | .uint16 | .uint32 | .uint64 => .uintv 0
  | .slice => .strList []

/-- Translated from `utils.StringifyValue` (src/helpers.go): `%v`
formatting for scalars and JSON for slices.  On the modelled kinds the
source never returns an error, so the model is total. -/
def StringifyValue : GoValue → String
  | .bool b => if b then "true" else "false"
  | .str s => s
  | .intv i => ⟨intToChars i⟩
  | .uintv n => ⟨natToChars n⟩
  | .strList l => jsonEncodeStringList l

/-- Does a value lie in the representable range of a kind?  Parsed values
always do; the stringify round trip is stated under this invariant. -/
def valFits : GoKind → GoValue → Bool
  | .bool, .bool _ => true
  | .str, .str _ => true
  | .int, .intv i | .int64, .intv i => -(2 ^ 63 : Int) ≤ i ∧ i < 2 ^ 63
  | .int8, .intv i => -(2 ^ 7 : Int) ≤ i ∧ i < 2 ^ 7
  | .int16, .intv i => -(2 ^ 15 : Int) ≤ i ∧ i < 2 ^ 15
  | .int32, .intv i => -(2 ^ 31 : Int) ≤ i ∧ i < 2 ^ 31
  | .uint, .uintv n | .uint64, .uintv n => n < 2 ^ 64
  | .uint8, .uintv n => n < 2 ^ 8
  | .uint16, .uintv n => n < 2 ^ 16
  | .uint32, .uintv n => n < 2 ^ 32
  | .slice, .strList _ => true
  | _, _ => false

theorem parseString_stringify_roundtrip (k : GoKind) (v : GoValue)
    (h : valFits k v = true) : ParseString k (StringifyValue v) = .ok v := by
  cases k <;> cases v <;> simp [valFits] at h <;>
    simp only [ParseString, StringifyValue, goParseInt, goParseUint, GoKind.intBits,
      GoKind.uintBits]
  case bool.bool b => cases b <;> rfl
  case int.intv i =>
    rw [goParseIntChars_roundtrip i 64 (by omega) (by omega)]
  case int8.intv i =>
    rw [goParseIntChars_roundtrip i 8 (by omega) (by omega)]
  case int16.intv i =>
    rw [goParseIntChars_roundtrip i 16 (by omega) (by omega)]
  case int32.intv i =>
    rw [goParseIntChars_roundtrip i 32 (by omega) (by omega)]
  case int64.intv i =>
    rw [goParseIntChars_roundtrip i 64 (by omega) (by omega)]
  case uint.uintv n =>
    rw [goParseUintChars_roundtrip n 64 (by omega)]
  case uint8.uintv n =>
    rw [goParseUintChars_roundtrip n 8 (by omega)]
  case uint16.uintv n =>
    rw [goParseUintChars_roundtrip n 16 (by omega)]
  case uint32.uintv n =>
    rw [goParseUintChars_roundtrip n 32 (by omega)]
  case uint64.uintv n =>
    rw [goParseUintChars_roundtrip n 64 (by omega)]
  case slice.strList l => rw [jsonDecodeStringList_encode]

/-- Model of the object that `utils.SetField` mutates: the result of
dereferencing the pointer/interface chain (`utils.DerefValue`) is either a
nil terminus, a non-struct value, or a struct with named, typed fields. -/
inductive ObjVal where
  | nilPtr
  | nonStruct
  | strukt (fields : List (String × GoKind × GoValue))
deriving DecidableEq, Repr

/-- Translated from `utils.SetField` (src/helpers.go): a nil or non-struct
dereference returns success without mutating; a missing field is an error;
otherwise the value is coerced with `ParseString` and stored. -/
def SetField (obj : ObjVal) (fieldname value : String) : Except String ObjVal :=
  match obj with
  | .nilPtr => .ok .nilPtr
  | .nonStruct => .ok .nonStruct
  | .strukt fields =>
    match fields.find? (fun f => f.1 == fieldname) with
    | none => .error ("Field not found when setting field: " ++ fieldname)
    | some (_, k, _) =>
      match ParseString k value with
      | .error e => .error ("Failed to parse value: " ++ e)
      | .ok v => .ok (.strukt (fields.map (fun f => if f.1 == fieldname then (f.1, k, v) else f)))

/-- Translated from `flagTarget` (src/flags.go): the binding between one
flag and the object field it writes. -/
structure flagTarget where
  object : ObjVal
  fieldName : String
  usage : String

/-- Translated from `flagTarget.Set` (src/flags.go): delegates to
`utils.SetField` on the bound object and field. -/
def flagTargetSet (target : flagTarget) (value : String) : Except String ObjVal :=
  SetField target.object target.fieldName value

/-- Claim C10: `SetField` on an object whose pointer/interface chain
dereferences to nil, or to a non-struct value, returns success without
mutating anything, so a parsed flag token whose target object is nil is
silently accepted by `flagTarget.Set` and has no effect. -/
theorem setField_nil_silently_succeeds (fieldname value usage : String) :
    SetField .nilPtr fieldname value = .ok .nilPtr ∧
    SetField .nonStruct fieldname value = .ok .nonStruct ∧
    flagTargetSet ⟨.nilPtr, fieldname, usage⟩ value = .ok .nilPtr := by
  refine ⟨rfl, rfl, rfl⟩

/-- Claim C9: coercion into a 64-bit signed integer first attempts a
base-10 integer parse; only if that fails does it attempt a duration
parse, whose `int64` nanosecond value is returned bit-identically; strings
that parse as neither yield an error; and the duration fallback exists
only for the `int64` kind — for every other numeric width a
duration-shaped string that fails the integer parse is a coercion error. -/
theorem parseString_int64_duration_order :
    (∀ s i, goParseInt 64 s = .ok i → ParseString .int64 s = .ok (.intv i)) ∧
    (∀ s e d, goParseInt 64 s = .error e → goParseDuration s = .ok d →
      ParseString .int64 s = .ok (.intv d)) ∧
    (∀ s e e2, goParseInt 64 s = .error e → goParseDuration s = .error e2 →
      ParseString .int64 s = .error ("Failed to parse string to int64 or time.Duration: " ++ e2)) ∧
    (∀ k, k = GoKind.int ∨ k = .int8 ∨ k = .int16 ∨ k = .int32 →
      ∀ s e d, goParseInt k.intBits s = .error e → goParseDuration s = .ok d →
        ParseString k s = .error ("Failed to parse string to int: " ++ e)) ∧
    (∀ k, k = GoKind.uint ∨ k = .uint8 ∨ k = .uint16 ∨ k = .uint32 ∨ k = .uint64 →
      ∀ s e d, goParseUint k.uintBits s = .error e → goParseDuration s = .ok d →
        ParseString k s = .error ("Failed to parse string to uint: " ++ e)) := by
  refine ⟨?_, ?_, ?_, ?_, ?_⟩
  · intro s i h
    simp [ParseString, h]
  · intro s e d h1 h2
    simp [ParseString, h1, h2]
  · intro s e e2 h1 h2
    simp [ParseString, h1, h2]
  · intro k hk s e d h1 _
    rcases hk with rfl | rfl | rfl | rfl <;> simp [ParseString, h1]
  · intro k hk s e d h1 _
    rcases hk with rfl | rfl | rfl | rfl | rfl <;> simp [ParseString, h1]

/-- Witness for Claim C9 at concrete inputs: `"1h30m"` fails the integer
parse, parses as a duration of 5400000000000 nanoseconds for the `int64`
kind, and is a coercion error at width 32; `"64"` parses as the integer
64. -/
theorem parseString_int64_duration_order_witness :
    ParseString .int64 "1h30m" = .ok (.intv 5400000000000) ∧
    ParseString .int64 "64" = .ok (.intv 64) ∧
    ParseString .int32 "1h30m" = .error ("Failed to parse string to int: " ++ "invalid syntax") ∧
    ParseString .uint64 "1h30m" = .error ("Failed to parse string to uint: " ++ "invalid syntax") := by
  refine ⟨?_, ?_, ?_, ?_⟩
  · exact (parseString_int64_duration_order.2.1) "1h30m" "invalid syntax" 5400000000000 rfl rfl
  · exact (parseString_int64_duration_order.1) "64" 64 rfl
  · exact (parseString_int64_duration_order.2.2.2.1) .int32 (by simp) "1h30m" "invalid syntax"
      5400000000000 rfl rfl
  · exact (parseString_int64_duration_order.2.2.2.2) .uint64 (by simp) "1h30m" "invalid syntax"
      5400000000000 rfl rfl

/-! Embedding of directive parsing and subcommand resolution
(src/commander.go `subCommand`, src/usage.go `parseSubcommandDirective`,
src/flags.go `parseFlagDirective`). -/

/-- Translated from `parseSubcommandDirective` (src/usage.go): split on the
first comma into name and description, with a canned description when the
comma is absent. -/
def parseSubcommandDirective (directive : String) : String × String :=
  match splitFirst ',' directive.data with
  | (pre, some rest) => (⟨pre⟩, ⟨rest⟩)
  | (pre, none) => (⟨pre⟩, "No description for this subcommand")

/-- Translated from `parseFlagDirective` (src/flags.go): split on the first
comma into name and usage, with a canned usage when the comma is absent. -/
def parseFlagDirective (directive : String) : String × String :=
  match splitFirst ',' directive.data with
  | (pre, some rest) => (⟨pre⟩, ⟨rest⟩)
  | (_, none) => (directive, "No usage found for this flag.")

/-- Modelled from the spec: `normalize(cmd)` strips hyphens and
underscores and lowercases (spec section 4.5).  The `normalizeCommand`
helper referenced by src/commander.go is not among the provided sources;
the older in-tree `HasCommand` (src/usage.go) applies the same
replace-then-lowercase steps. -/
def normalizeCommand (cmd : String) : String :=
  ⟨(cmd.data.filter (fun c => c ≠ '-' ∧ c ≠ '_')).map Char.toLower⟩

/-- Model of an application value as seen by `subCommand`: a nil pointer
still exposes its struct type's field tags, a non-struct value exposes
nothing, and a live struct carries tagged fields with child values. -/
inductive AppVal where
  | nilPtr (ftags : List (String × Option String))
  | scalar
  | node (fields : List (String × Option String × AppVal))

/-- Model of `utils.DerefType`: the tagged fields of the struct type, when
the value's type dereferences to a struct. -/
def derefTypeFields : AppVal → Option (List (String × Option String))
  | .node fields => some (fields.map (fun f => (f.1, f.2.1)))
  | .nilPtr ftags => some ftags
  | .scalar => none

/-- Field loop of `subCommand` (src/commander.go): scans tagged fields in
declaration order, errors on malformed flag/subcommand tags, and on an
exact name match fetches the field value from the dereferenced
application value (an error if the application itself dereferences to
nil). -/
def subCommandLoop (app : AppVal) (cmd : String) :
    List (String × Option String) → Except String (Option AppVal)
  | [] => .ok none
  | (fname, tag) :: rest =>
    match tag with
    | none => subCommandLoop app cmd rest
    | some tagstr =>
      if tagstr = "" then subCommandLoop app cmd rest
      else
        let split := splitOnChar '=' tagstr.data
        if split.length ≠ 2 ∧ (split.headI = "flag".data ∨ split.headI = "subcommand".data) then
          .error ("malformed tag on application: " ++ tagstr)
        else if split.headI ≠ "subcommand".data then subCommandLoop app cmd rest
        else
          if (parseSubcommandDirective ⟨split.getD 1 []⟩).1 ≠ cmd then
            subCommandLoop app cmd rest
          else
            match app with
            | .node fields =>
              match fields.find? (fun f => f.1 == fname) with
              | some f => .ok (some f.2.2)
              | none => .error ("failed to get subcommand from field " ++ fname)
            | _ => .error ("failed to get subcommand from field " ++ fname)

/-- Translated from `subCommand` (src/commander.go): returns the child
application value for a declared subcommand name, `none` when no directive
matches, and an error for a non-struct application or malformed tags. -/
def subCommand (app : AppVal) (cmd : String) : Except String (Option AppVal) :=
  match derefTypeFields app with
  | none => .error "application needs to be a struct or a pointer to a struct"
  | some tfields => subCommandLoop app cmd tfields

/-- Concrete application with one subcommand directive declared as
`subapp` and a live child node. -/
def appLiveChild : AppVal := .node [("SubApp", some "subcommand=subapp", .node [])]

/-- Concrete application whose subcommand field is an unset (nil)
pointer. -/
def appNilChild : AppVal := .node [("SubApp", some "subcommand=subapp", .nilPtr [])]

/-- Counterexample to claim C5: `subCommand` compares the raw candidate
token with the declared name, so the token `Sub-App`, which is equal to
the declared name `subapp` up to normalization, does not resolve, while
the exact token does. -/
theorem subCommand_counterexample_C5 :
    normalizeCommand "Sub-App" = normalizeCommand "subapp" ∧
    subCommand appLiveChild "Sub-App" = .ok none ∧
    subCommand appLiveChild "subapp" = .ok (some (.node [])) :=
  ⟨rfl, rfl, rfl⟩

/-- Claim C5 as amended: subcommand resolution compares the candidate
token against the declared directive name by exact string equality, with
no normalization: any token other than the exact declared name fails to
resolve on this node, and the exact name resolves to the child. -/
theorem subCommand_exact_match (tok : String) (h : tok ≠ "subapp") :
    subCommand appLiveChild tok = .ok none ∧
    subCommand appLiveChild "subapp" = .ok (some (.node [])) := by
  refine ⟨?_, rfl⟩
  have h2 : ¬ (("subapp" : String) = tok) := fun hc => h hc.symm
  simp +decide [subCommand, appLiveChild, derefTypeFields, subCommandLoop,
    parseSubcommandDirective, splitFirst, splitOnChar, h2]

/-- Witness for the amended claim C5 at the concrete token `Sub-App`. -/
theorem subCommand_exact_match_witness :
    subCommand appLiveChild "Sub-App" = .ok none ∧
    subCommand appLiveChild "subapp" = .ok (some (.node [])) :=
  subCommand_exact_match "Sub-App" (by decide)

/-- Counterexample to claim C6: when the matched subcommand field holds a
nil pointer, `subCommand` returns the nil child with a nil error rather
than failing. -/
theorem subCommand_counterexample_C6 :
    subCommand appNilChild "subapp" = .ok (some (.nilPtr [])) := rfl

/-- Claim C6 as amended: on a name match `subCommand` returns whatever
value the field holds, a nil pointer included, without error; the nil
check applies only to the parent application value. -/
theorem subCommand_returns_nil_child (v : AppVal) :
    subCommand (.node [("SubApp", some "subcommand=subapp", v)]) "subapp" = .ok (some v) := rfl

/-! Flag surface model.  A `FlagEntry` is the data of one registered
`flagTarget` (src/flags.go): the flag name, the bound field kind, the
destination field identifiers it writes (several after FlagSlice fan-out,
see the spec's Flag Target invariant), and the usage text.  The values of
all destination fields live in a store keyed by destination identifier. -/

structure FlagEntry where
  name : String
  kind : GoKind
  dests : List String
  usage : String
deriving DecidableEq, Repr

/-- Looks a flag up by name in the surface. -/
def findFlag (surface : List FlagEntry) (name : String) : Option FlagEntry :=
  surface.find? (fun e => e.name == name)

/-- Updates one destination in the store, leaving unknown destinations
unchanged (a write through a nil object is a silent no-op, see
`SetField`). -/
def storeSet (st : List (String × GoValue)) (d : String) (v : GoValue) :
    List (String × GoValue) :=
  st.map (fun p => if p.1 == d then (p.1, v) else p)

/-- Reads one destination from the store. -/
def storeGet (st : List (String × GoValue)) (d : String) : Option GoValue :=
  (st.find? (fun p => p.1 == d)).map (·.2)

/-- Model of `flagTarget.Set` lifted to the store: coerce the token with
`ParseString` and write every destination bound to the entry. -/
def setEntry (e : FlagEntry) (value : String) (st : List (String × GoValue)) :
    Except String (List (String × GoValue)) :=
  match ParseString e.kind value with
  | .error msg => .error msg
  | .ok v => .ok (e.dests.foldl (fun acc d => storeSet acc d v) st)

/-- Result of processing one token of the flag stream. -/
inductive FlagStepRes where
  | stop (args : List String)
  | cont (st : List (String × GoValue)) (rest : List String)
  | fail (msg : String)
deriving Repr

/-- Applies one flag once its name and optional `=value` are isolated:
boolean flags (`flagTarget.IsBoolFlag`, the kind test in src/flags.go)
take `=value` or default to `"true"`; other flags take `=value` or consume
the next token. -/
def goFlagSet (surface : List FlagEntry) (st : List (String × GoValue))
    (nm : List Char) (val : Option String) (rest : List String) : FlagStepRes :=
  match findFlag surface ⟨nm⟩ with
  | none =>
    if nm = "help".data ∨ nm = "h".data then .fail "flag: help requested"
    else .fail ("flag provided but not defined: -" ++ (⟨nm⟩ : String))
  | some e =>
    if e.kind = .bool then
      match val with
      | some v =>
        match setEntry e v st with
        | .error msg => .fail ("invalid boolean value for -" ++ (⟨nm⟩ : String) ++ ": " ++ msg)
        | .ok st2 => .cont st2 rest
      | none =>
        match setEntry e "true" st with
        | .error msg => .fail ("invalid boolean flag " ++ (⟨nm⟩ : String) ++ ": " ++ msg)
        | .ok st2 => .cont st2 rest
    else
      match val with
      | some v =>
        match setEntry e v st with
        | .error msg => .fail ("invalid value for flag -" ++ (⟨nm⟩ : String) ++ ": " ++ msg)
        | .ok st2 => .cont st2 rest
      | none =>
        match rest with
        | v :: rest2 =>
          match setEntry e v st with
          | .error msg => .fail ("invalid value for flag -" ++ (⟨nm⟩ : String) ++ ": " ++ msg)
          | .ok st2 => .cont st2 rest2
        | [] => .fail ("flag needs an argument: -" ++ (⟨nm⟩ : String))

/-- Splits the name characters after the dashes at the first `=` (the
scan in the source starts at index one, a leading `=` or `-` being a
syntax error). -/
def goFlagParseName (surface : List FlagEntry) (st : List (String × GoValue))
    (name : List Char) (rest : List String) : FlagStepRes :=
  match name with
  | [] => .fail "bad flag syntax"
  | n0 :: ntail =>
    if n0 = '-' ∨ n0 = '=' then .fail ("bad flag syntax: -" ++ (⟨name⟩ : String))
    else
      match splitFirst '=' ntail with
      | (pre, some v) => goFlagSet surface st (n0 :: pre) (some ⟨v⟩) rest
      | (_, none) => goFlagSet surface st (n0 :: ntail) none rest

/-- Processes the leading token of the flag stream: stop on a non-flag
token, consume `--` as a terminator, otherwise handle one flag. -/
def flagStep (surface : List FlagEntry) (st : List (String × GoValue))
    (s : String) (rest : List String) : FlagStepRes :=
  match s.data with
  | '-' :: c1 :: cs1 =>
    if c1 = '-' then
      if cs1 = [] then .stop rest
      else goFlagParseName surface st cs1 rest
    else goFlagParseName surface st (c1 :: cs1) rest
  | _ => .stop (s :: rest)

/-- Fuel-driven loop of Go `flag.FlagSet.Parse` over the flag surface;
every iteration consumes at least one token, so the token count bounds
the iterations and the zero-fuel case is unreachable from the entry
point. -/
def goFlagParseGo (surface : List FlagEntry) :
    Nat → List (String × GoValue) → List String →
      Except String (List (String × GoValue) × List String)
  | 0, st, args => .ok (st, args)
  | _ + 1, st, [] => .ok (st, [])
  | fuel + 1, st, s :: rest =>
    match flagStep surface st s rest with
    | .stop args => .ok (st, args)
    | .fail msg => .error msg
    | .cont st2 rest2 => goFlagParseGo surface fuel st2 rest2

/-- Model of Go `flag.FlagSet.Parse`: parses leading flag tokens into the
store and returns the positional remainder (`flagset.Args()`). -/
def goFlagParse (surface : List FlagEntry) (st : List (String × GoValue))
    (args : List String) : Except String (List (String × GoValue) × List String) :=
  goFlagParseGo surface (args.length + 1) st args

/-! Embedding of command invocation (`runCommand`, src/commander.go) and
the per-level dispatch logic of `RunCLI` (src/commander.go) together with
`getPossibleCommands` (src/helpers.go). -/

/-- A command method: its declared parameter kinds (the reflected
signature without the receiver) and the handler body, which receives the
coerced values and may return an error (the model of a handler whose
single result is an error value). -/
structure Method where
  params : List GoKind
  handler : List GoValue → Option String

/-- Is the last declared parameter a sequence?  With no declared
parameters the reflected slot is the receiver, never a slice. -/
def lastIsSlice (params : List GoKind) : Bool :=
  match params.getLast? with
  | some .slice => true
  | _ => false

/-- Modelled from the spec: `locate(node, normalizedName)` matches the
callable set under `normalize` (spec section 4.5).  The `getMethod` and
`hasCommand` helpers referenced by src/commander.go are not among the
provided sources; the older in-tree `HasCommand` (src/usage.go) compares
the same way. -/
def hasCommand (methods : List (String × Method)) (cmd : String) : Bool :=
  (methods.find? (fun m => normalizeCommand m.1 == normalizeCommand cmd)).isSome

/-- Modelled from the spec: method lookup by normalized name; an error
when the command is absent from the callable set. -/
def getMethod (methods : List (String × Method)) (cmd : String) : Except String Method :=
  match methods.find? (fun m => normalizeCommand m.1 == normalizeCommand cmd) with
  | some m => .ok m.2
  | none => .error ("failed to find method " ++ cmd)

/-- The reserved default command name (src/commander.go `DefaultCommand`). -/
def DefaultCommand : String := "CommanderDefault"

/-- Translated from `getPossibleCommands` (src/helpers.go): the first
remaining token (if any), then the most recently consumed command (if
any), then the reserved default name. -/
def getPossibleCommands (arguments cumulativeCommands : List String) : List String :=
  (match arguments with
   | a :: _ => [a]
   | [] => []) ++
  (match cumulativeCommands.getLast? with
   | some prev => [prev]
   | none => []) ++ [DefaultCommand]

/-- Modelled from the spec: `findCommand` takes the candidate list built
by `getPossibleCommands` and returns the first candidate the node's
callable set contains; its implementation is not among the provided
sources. -/
def findCommand (methods : List (String × Method)) (commands : List String) : Option String :=
  commands.find? (fun c => hasCommand methods c)

/-- Errors crossing `executeCommand`: dispatch-level failures versus the
`applicationError` marker wrapping an error returned by the handler body
(src/unnamed/part_004). -/
inductive CmdErr where
  | dispatch (msg : String)
  | application (e : String)
deriving DecidableEq, Repr

/-- Translated from `isApplicationError` (src/unnamed/part_004). -/
def isApplicationError : CmdErr → Bool
  | .application _ => true
  | .dispatch _ => false

/-- Argument-count handling of `runCommand` (src/commander.go): with a
sequence-typed last parameter, fewer than N-1 tokens is an error, exactly
N-1 tokens appends the literal `"[]"`, and N-1 or more tokens JSON-encode
the tokens from position N-1 onward into the last slot; without a
sequence last parameter the count must be exactly N. -/
def runCommandPrep (inputsize : Nat) (lastSlice : Bool) (args : List String) :
    Except String (List String) :=
  if args.length < inputsize - 1 ∧ lastSlice then
    .error ("command requires " ++ (⟨natToChars (inputsize - 1)⟩ : String) ++
      " arguments, have " ++ (⟨natToChars args.length⟩ : String))
  else if args.length ≠ inputsize ∧ ¬ lastSlice then
    .error ("command requires " ++ (⟨natToChars inputsize⟩ : String) ++
      " arguments, have " ++ (⟨natToChars args.length⟩ : String))
  else if args.length < inputsize then .ok (args ++ ["[]"])
  else if args.length > inputsize ∨ lastSlice then
    .ok (args.take (inputsize - 1) ++ [jsonEncodeStringList (args.drop (inputsize - 1))])
  else .ok args

/-- Coerces each prepared token into the corresponding parameter kind via
`ParseString` (the loop at the end of `runCommand`). -/
def coerceAll : List GoKind → List String → Except String (List GoValue)
  | [], [] => .ok []
  | k :: ks, a :: more =>
    match ParseString k a with
    | .error e => .error ("failed to parse string into function argument: " ++ e)
    | .ok v =>
      match coerceAll ks more with
      | .error e => .error e
      | .ok vs => .ok (v :: vs)
  | _, _ => .error "failed to parse string into function argument"

/-- Translated from `runCommand` (src/commander.go): locate the method,
fix up the argument count, coerce, invoke, and wrap a handler error in the
application marker. -/
def runCommand (methods : List (String × Method)) (cmd : String) (args : List String) :
    Except CmdErr Unit :=
  match getMethod methods cmd with
  | .error e => .error (.dispatch e)
  | .ok m =>
    match runCommandPrep m.params.length (lastIsSlice m.params) args with
    | .error e => .error (.dispatch e)
    | .ok args2 =>
      match coerceAll m.params args2 with
      | .error e => .error (.dispatch e)
      | .ok vals =>
        match m.handler vals with
        | some e => .error (.application e)
        | none => .ok ()

/-- Translated from the command-selection part of `RunCLI`
(src/commander.go): builds the candidate list, extends the cumulative
path, finds the command, and strips the consumed token only when the
chosen command is the first remaining token and the previous cumulative
entry is not that same token.  Returns the chosen command (if any), the
arguments to execute with, and the extended cumulative path. -/
def levelSelect (methods : List (String × Method))
    (arguments cumulativeCommands : List String) :
    Option String × List String × List String :=
  match findCommand methods (getPossibleCommands arguments cumulativeCommands) with
  | none =>
    (none, arguments,
      match arguments with
      | a :: _ => cumulativeCommands ++ [a]
      | [] => cumulativeCommands)
  | some cmd =>
    match arguments with
    | [] => (some cmd, [], cumulativeCommands)
    | a :: rest =>
      if cmd = a ∧ ((cumulativeCommands ++ [a]).length < 2 ∨
          (cumulativeCommands ++ [a]).getD ((cumulativeCommands ++ [a]).length - 2) "" ≠ a) then
        (some cmd, rest, cumulativeCommands ++ [a])
      else
        (some cmd, a :: rest, cumulativeCommands ++ [a])

/-- One dispatch level of an application once subcommand resolution has
finished: the flag surface of the level (command-scoped flag structs are
not modelled), its value store, the callable set, and the result of the
post-flag-parse hook. -/
structure LevelApp where
  surface : List FlagEntry
  store : List (String × GoValue)
  methods : List (String × Method)
  hookErr : Option String

/-- Translated from `executeCommand` (src/commander.go): reparse the
remaining tokens through the level's flag set, run the post-flag-parse
hook, then run the command. -/
def executeCommand (app : LevelApp) (cmd : String) (args : List String) : Except CmdErr Unit :=
  match goFlagParse app.surface app.store args with
  | .error e => .error (.dispatch e)
  | .ok (_, args2) =>
    match app.hookErr with
    | some e => .error (.dispatch e)
    | none => runCommand app.methods cmd args2

/-- Outcome of one dispatch level: whether usage was printed and the
error message returned to the caller (`none` for success). -/
structure LevelResult where
  usagePrinted : Bool
  errmsg : Option String
deriving DecidableEq, Repr

/-- Translated from the tail of `RunCLI` (src/commander.go): a failed
lookup prints usage and returns a lookup error; a dispatch-level failure
from `executeCommand` prints usage and returns the wrapped message; an
application-level error is returned exactly as the handler produced it,
with no usage printed. -/
def runCLILevel (app : LevelApp) (arguments cumulativeCommands : List String) : LevelResult :=
  match levelSelect app.methods arguments cumulativeCommands with
  | (none, _, _) => ⟨true, some "failed to find possible method"⟩
  | (some cmd, args2, _) =>
    match executeCommand app cmd args2 with
    | .error (.dispatch m) => ⟨true, some ("failed to run application: " ++ m)⟩
    | .error (.application e) => ⟨false, some e⟩
    | .ok _ => ⟨false, none⟩

theorem coerceAll_append (ks : List GoKind) (xs : List String) (vs : List GoValue)
    (h : coerceAll ks xs = .ok vs) (k : GoKind) (x : String) (v : GoValue)
    (h2 : ParseString k x = .ok v) :
    coerceAll (ks ++ [k]) (xs ++ [x]) = .ok (vs ++ [v]) := by
  induction ks generalizing xs vs with
  | nil =>
    cases xs with
    | nil =>
      simp only [coerceAll] at h
      cases h
      simp [coerceAll, h2]
    | cons x0 xs' => simp [coerceAll] at h
  | cons k0 ks' ih =>
    cases xs with
    | nil => simp [coerceAll] at h
    | cons x0 xs' =>
      simp only [coerceAll] at h
      cases hp : ParseString k0 x0 with
      | error e => rw [hp] at h; simp at h
      | ok v0 =>
        rw [hp] at h
        simp only at h
        cases hc : coerceAll ks' xs' with
        | error e => rw [hc] at h; simp at h
        | ok vs' =>
          rw [hc] at h
          simp only at h
          cases h
          have h3 := ih xs' vs' hc
          simp only [List.cons_append, coerceAll, hp]
          simp [h3]

theorem getMethod_singleton (name : String) (m : Method) :
    getMethod [(name, m)] name = .ok m := by
  simp [getMethod, List.find?]

/-- Claim C1: for a command method whose last declared parameter is a
sequence (N declared parameters, the first N-1 of which coerce to `vs`),
invoking it through `runCommand` with at least N-1 tokens JSON-encodes the
tokens from position N-1 onward into a single sequence value bound to the
last parameter (the empty sequence when exactly N-1 tokens are supplied)
and invokes the handler on the result; invoking it with fewer than N-1
tokens is an argument-count dispatch error for every handler, so the
handler is never consulted. -/
theorem runCommand_sequence_capture (name : String) (ks : List GoKind)
    (h : List GoValue → Option String) (args : List String) (vs : List GoValue)
    (hco : coerceAll ks (args.take ks.length) = .ok vs) :
    (args.length ≥ ks.length →
      runCommand [(name, ⟨ks ++ [.slice], h⟩)] name args
        = (match h (vs ++ [.strList (args.drop ks.length)]) with
           | some e => .error (.application e)
           | none => .ok ())) ∧
    (∀ args2 : List String, args2.length < ks.length →
      ∀ h2 : List GoValue → Option String,
        runCommand [(name, ⟨ks ++ [.slice], h2⟩)] name args2
          = .error (.dispatch ("command requires " ++ (⟨natToChars ks.length⟩ : String) ++
              " arguments, have " ++ (⟨natToChars args2.length⟩ : String)))) := by
  have hslice : lastIsSlice (ks ++ [.slice]) = true := by
    simp [lastIsSlice, List.getLast?_concat]
  have hN : (ks ++ [GoKind.slice]).length = ks.length + 1 := by simp
  constructor
  · intro hge
    unfold runCommand
    rw [getMethod_singleton]
    simp only
    unfold runCommandPrep
    rw [hN, hslice]
    rw [if_neg (by simp; omega)]
    rw [if_neg (by simp)]
    by_cases hcase : args.length < ks.length + 1
    · have hlen : args.length = ks.length := by omega
      rw [if_pos hcase]
      simp only
      have harg : args.take ks.length = args := by
        rw [← hlen, List.take_length]
      have hdrop : args.drop ks.length = [] := by
        rw [← hlen, List.drop_length]
      rw [harg] at hco
      have hps : ParseString .slice "[]" = .ok (.strList []) := rfl
      rw [coerceAll_append ks args vs hco .slice "[]" (.strList []) hps]
      rw [hdrop]
    · rw [if_neg hcase, if_pos (by right; rfl)]
      simp only
      have hps : ParseString .slice (jsonEncodeStringList (args.drop ks.length))
          = .ok (.strList (args.drop ks.length)) := by
        simp [ParseString, jsonDecodeStringList_encode]
      have hlen2 : (ks.length + 1) - 1 = ks.length := by omega
      rw [hlen2]
      rw [coerceAll_append ks (args.take ks.length) vs hco .slice _ _ hps]
  · intro args2 hlt h2
    unfold runCommand
    rw [getMethod_singleton]
    simp only
    unfold runCommandPrep
    rw [hN, hslice]
    rw [if_pos (by simp; omega)]
    simp

/-- Witness for claim C1: a method with one string parameter followed by
a sequence parameter, invoked with three tokens (the last two packed into
the sequence) and with zero tokens (an argument-count error). -/
theorem runCommand_sequence_capture_witness :
    runCommand [("opvariadic", ⟨[.str, .slice], fun _ => none⟩)] "opvariadic" ["a", "b", "c"]
      = .ok () ∧
    runCommand [("opvariadic", ⟨[.str, .slice], fun _ => none⟩)] "opvariadic" []
      = .error (.dispatch "command requires 1 arguments, have 0") := by
  constructor
  · exact (runCommand_sequence_capture "opvariadic" [.str] (fun _ => none) ["a", "b", "c"]
      [.str "a"] rfl).1 (by decide)
  · exact (runCommand_sequence_capture "opvariadic" [.str] (fun _ => none) ["a", "b", "c"]
      [.str "a"] rfl).2 [] (by decide) _

/-- Claim C2: an error returned by the handler body is classified through
the application marker and returned by the dispatch level exactly as the
inner error, without printing usage; whereas a failed command lookup, a
wrong argument count, or a coercion failure each print usage for the
level and return a non-application (wrapped) error. -/
theorem runCLI_error_classification :
    (∀ (app : LevelApp) (args cum : List String) (cmd : String) (args2 cum2 : List String)
        (st2 : List (String × GoValue)) (args3 : List String) (m : Method)
        (pargs : List String) (vals : List GoValue) (e : String),
      levelSelect app.methods args cum = (some cmd, args2, cum2) →
      goFlagParse app.surface app.store args2 = .ok (st2, args3) →
      app.hookErr = none →
      getMethod app.methods cmd = .ok m →
      runCommandPrep m.params.length (lastIsSlice m.params) args3 = .ok pargs →
      coerceAll m.params pargs = .ok vals →
      m.handler vals = some e →
      runCLILevel app args cum = ⟨false, some e⟩) ∧
    (∀ (app : LevelApp) (args cum : List String) (cmd : String) (args2 cum2 : List String)
        (st2 : List (String × GoValue)) (args3 : List String) (m : Method) (msg : String),
      levelSelect app.methods args cum = (some cmd, args2, cum2) →
      goFlagParse app.surface app.store args2 = .ok (st2, args3) →
      app.hookErr = none →
      getMethod app.methods cmd = .ok m →
      runCommandPrep m.params.length (lastIsSlice m.params) args3 = .error msg →
      runCLILevel app args cum = ⟨true, some ("failed to run application: " ++ msg)⟩) ∧
    (∀ (app : LevelApp) (args cum : List String) (cmd : String) (args2 cum2 : List String)
        (st2 : List (String × GoValue)) (args3 : List String) (m : Method)
        (pargs : List String) (msg : String),
      levelSelect app.methods args cum = (some cmd, args2, cum2) →
      goFlagParse app.surface app.store args2 = .ok (st2, args3) →
      app.hookErr = none →
      getMethod app.methods cmd = .ok m →
      runCommandPrep m.params.length (lastIsSlice m.params) args3 = .ok pargs →
      coerceAll m.params pargs = .error msg →
      runCLILevel app args cum = ⟨true, some ("failed to run application: " ++ msg)⟩) ∧
    (∀ (app : LevelApp) (args cum : List String) (args2 cum2 : List String),
      levelSelect app.methods args cum = (none, args2, cum2) →
      runCLILevel app args cum = ⟨true, some "failed to find possible method"⟩) := by
  refine ⟨?_, ?_, ?_, ?_⟩
  · intro app args cum cmd args2 cum2 st2 args3 m pargs vals e h1 h2 h3 h4 h5 h6 h7
    simp [runCLILevel, executeCommand, runCommand, h1, h2, h3, h4, h5, h6, h7]
  · intro app args cum cmd args2 cum2 st2 args3 m msg h1 h2 h3 h4 h5
    simp [runCLILevel, executeCommand, runCommand, h1, h2, h3, h4, h5]
  · intro app args cum cmd args2 cum2 st2 args3 m pargs msg h1 h2 h3 h4 h5 h6
    simp [runCLILevel, executeCommand, runCommand, h1, h2, h3, h4, h5, h6]
  · intro app args cum args2 cum2 h1
    simp [runCLILevel, h1]

/-- Concrete one-level application for the claim C2 witness: one niladic
command whose body returns the sentinel error `"ERROR"`. -/
def appC2 : LevelApp :=
  { surface := [], store := [], methods := [("opthree", ⟨[], fun _ => some "ERROR"⟩)],
    hookErr := none }

/-- Witness for claim C2: invoking `opthree` returns exactly the sentinel
`"ERROR"` with no usage printed; invoking it with a surplus argument is an
argument-count dispatch error with usage printed; an unresolvable token
with no default command prints usage and fails. -/
theorem runCLI_error_classification_witness :
    runCLILevel appC2 ["opthree"] [] = ⟨false, some "ERROR"⟩ ∧
    runCLILevel appC2 ["opthree", "extra"] []
      = ⟨true, some ("failed to run application: " ++
          "command requires 0 arguments, have 1")⟩ ∧
    runCLILevel appC2 ["nosuch"] [] = ⟨true, some "failed to find possible method"⟩ := by
  refine ⟨?_, ?_, ?_⟩
  · exact runCLI_error_classification.1 appC2 ["opthree"] [] "opthree" [] ["opthree"] [] []
      ⟨[], fun _ => some "ERROR"⟩ [] [] "ERROR" rfl rfl rfl rfl rfl rfl rfl
  · exact runCLI_error_classification.2.1 appC2 ["opthree", "extra"] [] "opthree" ["extra"]
      ["opthree"] [] ["extra"] ⟨[], fun _ => some "ERROR"⟩
      "command requires 0 arguments, have 1" rfl rfl rfl rfl rfl
  · exact runCLI_error_classification.2.2.2 appC2 ["nosuch"] [] ["nosuch"] ["nosuch"] rfl

/-- Callable set for the claim C4 counterexample: one method `foo`, no
default command. -/
def mC4 : List (String × Method) := [("foo", ⟨[], fun _ => none⟩)]

/-- Counterexample to claim C4: at a level reached through the subcommand
`foo` (so the cumulative path ends in `foo`), the token `bar` resolves to
no subcommand and matches no declared command, yet command lookup selects
the previously consumed command `foo` rather than falling back to
`CommanderDefault`. -/
theorem levelSelect_counterexample_C4 :
    subCommand (AppVal.node []) "bar" = .ok none ∧
    hasCommand mC4 "bar" = false ∧
    levelSelect mC4 ["bar"] ["foo"] = (some "foo", ["bar"], ["foo", "bar"]) ∧
    ("foo" : String) ≠ DefaultCommand := by
  exact ⟨rfl, rfl, rfl, by decide⟩

/-- Claim C4 as amended: when the first remaining token matches no
declared command, lookup tries the previously consumed command name and
only then the reserved default name `CommanderDefault`; in every such
fallback the previously consumed token is not stripped from the argument
list, so it is passed as the selected command's first argument. -/
theorem levelSelect_fallback_order (methods : List (String × Method)) (tok : String)
    (rest cum : List String) (h1 : hasCommand methods tok = false) :
    (levelSelect methods (tok :: rest) cum).2.1 = tok :: rest ∧
    (levelSelect methods (tok :: rest) cum).1 =
      (match cum.getLast? with
       | some prev =>
         if hasCommand methods prev then some prev
         else if hasCommand methods DefaultCommand then some DefaultCommand else none
       | none =>
         if hasCommand methods DefaultCommand then some DefaultCommand else none) := by
  have hne : ∀ c : String, hasCommand methods c = true → c ≠ tok := by
    intro c hc hct
    rw [hct, h1] at hc
    exact Bool.false_ne_true hc
  unfold levelSelect getPossibleCommands findCommand
  cases hl : cum.getLast? with
  | none =>
    simp only [List.singleton_append, List.nil_append, List.find?, h1]
    by_cases hd : hasCommand methods DefaultCommand
    · simp only [hd, if_pos rfl]
      have : DefaultCommand ≠ tok := hne _ hd
      simp [this, hd]
    · simp only [Bool.not_eq_true] at hd
      simp [hd]
  | some prev =>
    simp only [List.singleton_append, List.nil_append, List.find?, h1]
    by_cases hp : hasCommand methods prev
    · simp only [hp]
      have : prev ≠ tok := hne _ hp
      simp [this, hp]
    · simp only [Bool.not_eq_true] at hp
      by_cases hd : hasCommand methods DefaultCommand
      · simp only [hd, hp]
        have : DefaultCommand ≠ tok := hne _ hd
        simp [this, hd, hp]
      · simp only [Bool.not_eq_true] at hd
        simp [hd, hp]

/-- Witness for the amended claim C4: with the default command declared
and the token `bar` matching nothing, lookup selects `CommanderDefault`
and `bar` stays at the head of the argument list. -/
theorem levelSelect_fallback_order_witness :
    (levelSelect [("CommanderDefault", ⟨[.str], fun _ => none⟩)] ["bar"] []).2.1 = ["bar"] ∧
    (levelSelect [("CommanderDefault", ⟨[.str], fun _ => none⟩)] ["bar"] []).1
      = some DefaultCommand := by
  have h := levelSelect_fallback_order [("CommanderDefault", ⟨[.str], fun _ => none⟩)]
    "bar" [] [] rfl
  exact ⟨h.1, h.2⟩

/-! Embedding of flag-surface construction: `setupFlagSet`
(src/commander.go) walking a tagged application tree, with the target
registry modelled from the spec (the `FlagSet.addTarget` referenced by the
current `setupFlagSet` is not among the provided sources). -/

/-! Model of an application subtree as walked by `setupFlagSet`: a leaf is
a flaggable scalar field (its kind and the identifier of its storage), a
struct carries tagged fields, a slice carries element subtrees; `nilPtr`
is an unset pointer (Go would walk its struct type and register targets
bound to nil storage, whose writes are silent no-ops — see `SetField`;
the model elides these inert registrations).  The field list and element
list are mutual inductives so that the walk is structurally recursive. -/
mutual
/-- Application subtree for the `setupFlagSet` walk. -/
inductive GoApp where
  | scalar
  | nilPtr
  | leaf (kind : GoKind) (dest : String)
  | strukt (fields : GoFields)
  | sliceVal (elems : GoApps)

/-- Tagged field list of a struct subtree. -/
inductive GoFields where
  | nil
  | cons (name : String) (tag : Option String) (child : GoApp) (rest : GoFields)

/-- Element list of a slice subtree. -/
inductive GoApps where
  | nil
  | cons (a : GoApp) (rest : GoApps)
end

/-- Modelled from the spec: registering a flag target.  A name already
taken is a construction error for an independent plain Flag directive and
a multi-target fan-out when the registration arises from FlagSlice
composition (spec section 3, Flag Target invariant). -/
def addTarget (setter : List FlagEntry) (composable : Bool) (name : String)
    (kind : GoKind) (dest : String) (usage : String) : Except String (List FlagEntry) :=
  match findFlag setter name with
  | some _ =>
    if composable then
      .ok (setter.map (fun e => if e.name == name then
        { e with dests := e.dests ++ [dest] } else e))
    else .error ("Duplicate binding of flag: " ++ name)
  | none => .ok (setter ++ [⟨name, kind, [dest], usage⟩])

/-- Translated from `flagSetter.setFlag` (src/flags.go): parse the
directive payload into name and usage, then register the target. -/
def setFlag (setter : List FlagEntry) (composable : Bool) (kind : GoKind)
    (dest : String) (directive : String) : Except String (List FlagEntry) :=
  match parseFlagDirective directive with
  | (name, usage) => addTarget setter composable name kind dest usage

mutual
/-- Translated from `setupFlagSet` (src/commander.go): errors on
applications whose type is not a struct, walks a struct's tagged fields;
the `composable` marker records passage through a FlagSlice directive (the
spec's fan-out provenance). -/
def setupFlagSet (app : GoApp) (setter : List FlagEntry) (composable : Bool) :
    Except String (List FlagEntry) :=
  match app with
  | .strukt fields => setupFields fields setter composable
  | .nilPtr => .ok setter
  | _ => .error "application needs to be a struct or a pointer to a struct"

/-- Field loop of `setupFlagSet`: skips untagged fields and processes the
directives of tagged ones in declaration order.  A flag or subcommand
directive with other than exactly one `=` is a hard error; a flag
directive registers the leaf storage (a flag on a non-leaf field is
outside the modelled kinds and registers nothing); an unscoped flagstruct
recurses into the child; a flagslice iterates the slice elements with the
composable marker set; a scoped flagstruct, a subcommand, or an unknown
directive registers nothing here. -/
def setupFields (fields : GoFields) (setter : List FlagEntry) (composable : Bool) :
    Except String (List FlagEntry) :=
  match fields with
  | .nil => .ok setter
  | .cons _ none _ rest => setupFields rest setter composable
  | .cons _ (some tagstr) child rest =>
    if tagstr = "" then setupFields rest setter composable
    else if (splitOnChar '=' tagstr.data).length ≠ 2 ∧
        ((splitOnChar '=' tagstr.data).headI = "flag".data ∨
          (splitOnChar '=' tagstr.data).headI = "subcommand".data) then
      .error ("malformed tag on application: " ++ tagstr)
    else if (splitOnChar '=' tagstr.data).headI = "flag".data then
      match child with
      | .leaf kind dest =>
        match setFlag setter composable kind dest ⟨(splitOnChar '=' tagstr.data).getD 1 []⟩ with
        | .error e => .error e
        | .ok setter2 => setupFields rest setter2 composable
      | _ => setupFields rest setter composable
    else if (splitOnChar '=' tagstr.data).headI = "flagstruct".data ∧
        (splitOnChar '=' tagstr.data).length = 1 then
      match setupFlagSet child setter composable with
      | .error e => .error e
      | .ok setter2 => setupFields rest setter2 composable
    else if (splitOnChar '=' tagstr.data).headI = "flagslice".data then
      match child with
      | .sliceVal elems =>
        match setupElems elems setter with
        | .error e => .error e
        | .ok setter2 => setupFields rest setter2 composable
      | _ => .error "FlagSlice directive should only be used on slice fields"
    else setupFields rest setter composable

/-- Slice loop of the FlagSlice branch: each element is walked as a flag
struct with the composable marker set. -/
def setupElems (elems : GoApps) (setter : List FlagEntry) :
    Except String (List FlagEntry) :=
  match elems with
  | .nil => .ok setter
  | .cons e rest =>
    match setupFlagSet e setter true with
    | .error msg => .error msg
    | .ok setter2 => setupElems rest setter2
end

/-- Claim C8: a Flag or Subcommand directive lacking an `=` payload is a
hard construction error during flag-surface setup, whereas a FlagStruct or
FlagSlice directive with no `=` is accepted and treated as unscoped: the
nested flags are registered and no error is raised. -/
theorem setupFlagSet_malformed_asymmetry :
    (∀ (fname : String) (k : GoKind) (d : String) (setter : List FlagEntry) (comp : Bool),
      setupFlagSet (.strukt (.cons fname (some "flag") (.leaf k d) .nil)) setter comp
        = .error "malformed tag on application: flag") ∧
    (∀ (fname : String) (child : GoApp) (setter : List FlagEntry) (comp : Bool),
      setupFlagSet (.strukt (.cons fname (some "subcommand") child .nil)) setter comp
        = .error "malformed tag on application: subcommand") ∧
    (∀ (fname fname2 : String) (k : GoKind) (d : String),
      setupFlagSet (.strukt (.cons fname (some "flagstruct")
          (.strukt (.cons fname2 (some "flag=myflag") (.leaf k d) .nil)) .nil)) [] false
        = .ok [⟨"myflag", k, [d], "No usage found for this flag."⟩]) ∧
    (∀ (fname fname2 : String) (k : GoKind) (d : String),
      setupFlagSet (.strukt (.cons fname (some "flagslice")
          (.sliceVal (.cons (.strukt (.cons fname2 (some "flag=myflag") (.leaf k d) .nil))
            .nil)) .nil)) [] false
        = .ok [⟨"myflag", k, [d], "No usage found for this flag."⟩]) := by
  refine ⟨?_, ?_, ?_, ?_⟩
  · intro fname k d setter comp
    simp +decide [setupFlagSet, setupFields]
  · intro fname child setter comp
    simp +decide [setupFlagSet, setupFields]
  · intro fname fname2 k d
    simp +decide [setupFlagSet, setupFields, setFlag, parseFlagDirective, splitFirst,
      addTarget, findFlag]
  · intro fname fname2 k d
    simp +decide [setupFlagSet, setupFields, setupElems, setFlag, parseFlagDirective,
      splitFirst, addTarget, findFlag]

/-- Witness for claim C8 at a concrete field layout. -/
theorem setupFlagSet_malformed_asymmetry_witness :
    setupFlagSet (.strukt (.cons "F" (some "flag") (.leaf .str "d") .nil)) [] false
      = .error "malformed tag on application: flag" ∧
    setupFlagSet (.strukt (.cons "F" (some "subcommand") .scalar .nil)) [] false
      = .error "malformed tag on application: subcommand" ∧
    setupFlagSet (.strukt (.cons "F" (some "flagstruct")
        (.strukt (.cons "G" (some "flag=myflag") (.leaf .str "d") .nil)) .nil)) [] false
      = .ok [⟨"myflag", .str, ["d"], "No usage found for this flag."⟩] ∧
    setupFlagSet (.strukt (.cons "F" (some "flagslice")
        (.sliceVal (.cons (.strukt (.cons "G" (some "flag=myflag") (.leaf .str "d") .nil))
          .nil)) .nil)) [] false
      = .ok [⟨"myflag", .str, ["d"], "No usage found for this flag."⟩] :=
  ⟨setupFlagSet_malformed_asymmetry.1 "F" .str "d" [] false,
   setupFlagSet_malformed_asymmetry.2.1 "F" .scalar [] false,
   setupFlagSet_malformed_asymmetry.2.2.1 "F" "G" .str "d",
   setupFlagSet_malformed_asymmetry.2.2.2 "F" "G" .str "d"⟩

/-- Claim C7: registering the same flag name from two independent plain
Flag directives fails surface construction with a duplicate-binding
error, while the same name contributed by two FlagSlice elements builds a
single fan-out target with both destinations, and parsing the flag once
writes both destination fields. -/
theorem flag_duplicate_vs_fanout :
    (∀ (f1 f2 : String) (k1 : GoKind) (d1 : String) (k2 : GoKind) (d2 : String),
      setupFlagSet (.strukt (.cons f1 (some "flag=myflag") (.leaf k1 d1)
          (.cons f2 (some "flag=myflag") (.leaf k2 d2) .nil))) [] false
        = .error "Duplicate binding of flag: myflag") ∧
    (∀ (f g1 g2 : String) (k : GoKind) (d1 d2 : String),
      setupFlagSet (.strukt (.cons f (some "flagslice")
          (.sliceVal (.cons (.strukt (.cons g1 (some "flag=myflag") (.leaf k d1) .nil))
            (.cons (.strukt (.cons g2 (some "flag=myflag") (.leaf k d2) .nil)) .nil))) .nil))
          [] false
        = .ok [⟨"myflag", k, [d1, d2], "No usage found for this flag."⟩]) ∧
    (∀ (u : String) (d1 d2 : String) (v : String), d1 ≠ d2 →
      goFlagParse [⟨"myflag", .str, [d1, d2], u⟩] [(d1, .str ""), (d2, .str "")]
          ["--myflag", v]
        = .ok ([(d1, .str v), (d2, .str v)], [])) := by
  refine ⟨?_, ?_, ?_⟩
  · intro f1 f2 k1 d1 k2 d2
    simp +decide [setupFlagSet, setupFields, setFlag, parseFlagDirective, splitFirst,
      addTarget, findFlag]
  · intro f g1 g2 k d1 d2
    simp +decide [setupFlagSet, setupFields, setupElems, setFlag, parseFlagDirective,
      splitFirst, addTarget, findFlag]
  · intro u d1 d2 v hne
    have hbeq : (d1 == d2) = false := by
      simp [hne]
    have hbeq2 : (d2 == d1) = false := by
      simp
      exact fun hc => hne hc.symm
    have hne2 : ¬ (d2 = d1) := fun hc => hne hc.symm
    simp +decide [goFlagParse, goFlagParseGo, flagStep, goFlagParseName, goFlagSet,
      findFlag, setEntry, ParseString, storeSet, splitFirst, hbeq, hbeq2, hne2]

/-- Witness for claim C7 at concrete names and destinations. -/
theorem flag_duplicate_vs_fanout_witness :
    setupFlagSet (.strukt (.cons "A" (some "flag=myflag") (.leaf .int "d1")
        (.cons "B" (some "flag=myflag") (.leaf .int "d2") .nil))) [] false
      = .error "Duplicate binding of flag: myflag" ∧
    setupFlagSet (.strukt (.cons "S" (some "flagslice")
        (.sliceVal (.cons (.strukt (.cons "V" (some "flag=myflag") (.leaf .str "d1") .nil))
          (.cons (.strukt (.cons "V" (some "flag=myflag") (.leaf .str "d2") .nil)) .nil))) .nil))
        [] false
      = .ok [⟨"myflag", .str, ["d1", "d2"], "No usage found for this flag."⟩] ∧
    goFlagParse [⟨"myflag", .str, ["d1", "d2"], "u"⟩] [("d1", .str ""), ("d2", .str "")]
        ["--myflag", "somestring"]
      = .ok ([("d1", .str "somestring"), ("d2", .str "somestring")], []) :=
  ⟨flag_duplicate_vs_fanout.1 "A" "B" .int "d1" .int "d2",
   flag_duplicate_vs_fanout.2.1 "S" "V" "V" .str "d1" "d2",
   flag_duplicate_vs_fanout.2.2 "u" "d1" "d2" "somestring" (by decide)⟩

/-! The stringification round trip (spec: Flag Surface round-trip law).
`FlagSet.Stringify` itself is not among the provided sources, so the
emitter is modelled from the spec: every bound target emits
`--name value` (booleans as `--name=true`), except boolean flags at their
zero value, which are omitted. -/

/-- Modelled from the spec: the canonical token emission for one bound
flag, reading the current value of its first destination. -/
def stringifyEntry (e : FlagEntry) (st : List (String × GoValue)) : List String :=
  match e.dests with
  | [] => []
  | d :: _ =>
    match storeGet st d with
    | none => []
    | some v =>
      if e.kind = .bool then
        match v with
        | .bool true => ["--" ++ e.name ++ "=true"]
        | _ => []
      else ["--" ++ e.name, StringifyValue v]

/-- Modelled from the spec: `FlagSet.Stringify`, the canonical token list
of a surface, concatenating each entry's emission in registration
order. -/
def Stringify (surface : List FlagEntry) (st : List (String × GoValue)) : List String :=
  match surface with
  | [] => []
  | e :: rest => stringifyEntry e st ++ Stringify rest st

/-- All destination identifiers of a surface, in order. -/
def allDests : List FlagEntry → List String
  | [] => []
  | e :: rest => e.dests ++ allDests rest

/-- Zero-valued store of a surface: every destination at the zero value of
its entry's kind (the freshly built application of the round-trip law). -/
def zeroStore : List FlagEntry → List (String × GoValue)
  | [] => []
  | e :: rest => e.dests.map (fun d => (d, zeroValue e.kind)) ++ zeroStore rest

/-- A usable flag name: non-empty, not beginning with a dash, and free of
`=` (the token grammar could not round-trip other names). -/
def FlagNameOk (name : String) : Prop :=
  name.data ≠ [] ∧ name.data.headI ≠ '-' ∧ ∀ c ∈ name.data, c ≠ '='

/-- Well-formed surface: distinct flag names, globally distinct
destinations, and every entry non-empty and usable.  Surface construction
(`setupFlagSet`) only produces surfaces of this shape for usable
directive names. -/
def SurfaceWF (surface : List FlagEntry) : Prop :=
  (surface.map (·.name)).Nodup ∧ (allDests surface).Nodup ∧
    ∀ e ∈ surface, e.dests ≠ [] ∧ FlagNameOk e.name

/-- Every destination of a surface holds a value fitting its entry's kind
and all destinations of one entry agree. -/
def Synced (surface : List FlagEntry) (st : List (String × GoValue)) : Prop :=
  ∀ e ∈ surface, ∃ v, valFits e.kind v = true ∧ ∀ d ∈ e.dests, storeGet st d = some v

theorem storeGet_storeSet_self (st : List (String × GoValue)) (d : String) (v w : GoValue)
    (h : storeGet st d = some w) : storeGet (storeSet st d v) d = some v := by
  induction st with
  | nil => simp [storeGet] at h
  | cons p rest ih =>
    by_cases hp : p.1 = d
    · simp [storeGet, storeSet, List.find?_cons, hp]
    · have h' : storeGet rest d = some w := by
        simpa [storeGet, List.find?_cons, hp] using h
      simpa [storeGet, storeSet, List.find?_cons, hp] using ih h'

theorem storeGet_storeSet_other (st : List (String × GoValue)) (d d' : String) (v : GoValue)
    (h : d' ≠ d) : storeGet (storeSet st d v) d' = storeGet st d' := by
  induction st with
  | nil => rfl
  | cons p rest ih =>
    by_cases hp : p.1 = d
    · have hp' : p.1 ≠ d' := fun hc => h (hc ▸ hp ▸ rfl)
      simpa [storeGet, storeSet, List.find?_cons, hp, hp', Ne.symm h] using ih
    · by_cases hq : p.1 = d'
      · simp [storeGet, storeSet, List.find?_cons, hp, hq, h]
      · simpa [storeGet, storeSet, List.find?_cons, hp, hq] using ih

/-- Applies one value to every destination of an entry, as `setEntry`
does after coercion. -/
def setDests (ds : List String) (v : GoValue) (st : List (String × GoValue)) :
    List (String × GoValue) :=
  ds.foldl (fun acc d => storeSet acc d v) st

theorem storeGet_setDests_not_mem (ds : List String) (v : GoValue)
    (st : List (String × GoValue)) (d : String) (h : d ∉ ds) :
    storeGet (setDests ds v st) d = storeGet st d := by
  induction ds generalizing st with
  | nil => rfl
  | cons d0 rest ih =>
    have h0 : d ≠ d0 := fun hc => h (hc ▸ List.mem_cons_self d0 rest)
    have h1 : d ∉ rest := fun hc => h (List.mem_cons_of_mem d0 hc)
    show storeGet (setDests rest v (storeSet st d0 v)) d = storeGet st d
    rw [ih (storeSet st d0 v) h1, storeGet_storeSet_other st d0 d v h0]

theorem storeGet_setDests_mem (ds : List String) (v : GoValue) :
    ∀ (st : List (String × GoValue)) (d : String), ds.Nodup → d ∈ ds →
    (∃ w, storeGet st d = some w) →
    storeGet (setDests ds v st) d = some v := by
  induction ds with
  | nil => intro st d _ h; exact absurd h (List.not_mem_nil d)
  | cons d0 rest ih =>
    intro st d hnd hmem hpres
    rcases hpres with ⟨w, hw⟩
    rcases List.mem_cons.mp hmem with rfl | hmem2
    · have hnot : d ∉ rest := (List.nodup_cons.mp hnd).1
      show storeGet (setDests rest v (storeSet st d v)) d = some v
      rw [storeGet_setDests_not_mem rest v _ d hnot]
      exact storeGet_storeSet_self st d v w hw
    · show storeGet (setDests rest v (storeSet st d0 v)) d = some v
      by_cases hd0 : d = d0
      · subst hd0
        exact ih _ d (List.nodup_cons.mp hnd).2 hmem2
          ⟨v, storeGet_storeSet_self st d v w hw⟩
      · exact ih _ d (List.nodup_cons.mp hnd).2 hmem2
          ⟨w, by rw [storeGet_storeSet_other st d0 d v hd0]; exact hw⟩


theorem setEntry_eq_setDests (e : FlagEntry) (value : String) (st : List (String × GoValue))
    (v : GoValue) (h : ParseString e.kind value = .ok v) :
    setEntry e value st = .ok (setDests e.dests v st) := by
  simp [setEntry, h, setDests]

theorem splitFirst_not_mem (c : Char) (l : List Char) (h : c ∉ l) :
    splitFirst c l = (l, none) := by
  induction l with
  | nil => rfl
  | cons x xs ih =>
    have hx : x ≠ c := fun hc => h (hc ▸ List.mem_cons_self x xs)
    have hxs : c ∉ xs := fun hc => h (List.mem_cons_of_mem x hc)
    simp [splitFirst, hx, ih hxs]

theorem splitFirst_first (c : Char) (pre suf : List Char) (h : c ∉ pre) :
    splitFirst c (pre ++ c :: suf) = (pre, some suf) := by
  induction pre with
  | nil => simp [splitFirst]
  | cons x xs ih =>
    have hx : x ≠ c := fun hc => h (hc ▸ List.mem_cons_self x xs)
    have hxs : c ∉ xs := fun hc => h (List.mem_cons_of_mem x hc)
    simp [splitFirst, hx, ih hxs]

theorem valFits_zeroValue (k : GoKind) : valFits k (zeroValue k) = true := by
  cases k <;> decide

theorem goParseIntChars_fits (b : Nat) (s : List Char) (i : Int)
    (h : goParseIntChars b s = .ok i) :
    -(2 ^ (b - 1) : Int) ≤ i ∧ i < 2 ^ (b - 1) := by
  unfold goParseIntChars at h
  split at h
  next neg digits hss =>
    by_cases hd : digits = []
    · rw [if_pos hd] at h; exact absurd h (by simp)
    · rw [if_neg hd] at h
      cases hp : parseDigits digits 0 with
      | none => rw [hp] at h; exact absurd h (by simp)
      | some n =>
        rw [hp] at h
        dsimp only at h
        cases neg
        · simp only [Bool.false_eq_true, if_false] at h
          split_ifs at h with hr
          cases h; exact hr
        · simp only [if_true] at h
          split_ifs at h with hr
          cases h; exact hr

theorem goParseUintChars_fits (b : Nat) (s : List Char) (n : Nat)
    (h : goParseUintChars b s = .ok n) : n < 2 ^ b := by
  unfold goParseUintChars at h
  by_cases hs : s = []
  · rw [if_pos hs] at h; exact absurd h (by simp)
  · rw [if_neg hs] at h
    cases hp : parseDigits s 0 with
    | none => rw [hp] at h; exact absurd h (by simp)
    | some m =>
      rw [hp] at h
      dsimp only at h
      split_ifs at h with hr
      cases h; exact hr

theorem goParseDurationChars_fits (s : List Char) (d : Int)
    (h : goParseDurationChars s = .ok d) : -(2 ^ 63 : Int) ≤ d ∧ d < 2 ^ 63 := by
  unfold goParseDurationChars at h
  split at h
  next neg s1 hss =>
    by_cases h0 : s1 = ['0']
    · rw [if_pos h0] at h; cases h; decide
    · rw [if_neg h0] at h
      by_cases h1 : s1 = []
      · rw [if_pos h1] at h; exact absurd h (by simp)
      · rw [if_neg h1] at h
        cases hp : parseDurLoop s1 0 with
        | error e => rw [hp] at h; exact absurd h (by simp)
        | ok n =>
          rw [hp] at h
          dsimp only at h
          cases neg
          · rw [if_neg (show ¬(false = true) by simp)] at h
            split_ifs at h with hr
            cases h
            constructor
            · have : (0 : Int) ≤ (n : Int) := Int.ofNat_nonneg n
              omega
            · exact_mod_cast hr
          · rw [if_pos rfl] at h
            split_ifs at h with hr
            cases h
            constructor
            · simp only [neg_le_neg_iff]
              exact_mod_cast Nat.le_of_lt hr
            · have : (0 : Int) ≤ (n : Int) := Int.ofNat_nonneg n
              omega

theorem parseString_fits (k : GoKind) (s : String) (v : GoValue)
    (h : ParseString k s = .ok v) : valFits k v = true := by
  cases k
  case bool =>
    simp only [ParseString] at h
    cases hb : goParseBool s with
    | ok b => rw [hb] at h; dsimp only at h; cases h; rfl
    | error e => rw [hb] at h; dsimp only at h; exact absurd h (by simp)
  case str =>
    simp only [ParseString] at h
    cases h; rfl
  case int =>
    simp only [ParseString, goParseInt, GoKind.intBits] at h
    cases hi : goParseIntChars 64 s.data with
    | ok i =>
      rw [hi] at h; dsimp only at h; cases h
      have hf := goParseIntChars_fits _ _ _ hi
      simp only [valFits, decide_eq_true_eq]
      simpa using hf
    | error e => rw [hi] at h; dsimp only at h; exact absurd h (by simp)
  case int8 =>
    simp only [ParseString, goParseInt, GoKind.intBits] at h
    cases hi : goParseIntChars 8 s.data with
    | ok i =>
      rw [hi] at h; dsimp only at h; cases h
      have hf := goParseIntChars_fits _ _ _ hi
      simp only [valFits, decide_eq_true_eq]
      simpa using hf
    | error e => rw [hi] at h; dsimp only at h; exact absurd h (by simp)
  case int16 =>
    simp only [ParseString, goParseInt, GoKind.intBits] at h
    cases hi : goParseIntChars 16 s.data with
    | ok i =>
      rw [hi] at h; dsimp only at h; cases h
      have hf := goParseIntChars_fits _ _ _ hi
      simp only [valFits, decide_eq_true_eq]
      simpa using hf
    | error e => rw [hi] at h; dsimp only at h; exact absurd h (by simp)
  case int32 =>
    simp only [ParseString, goParseInt, GoKind.intBits] at h
    cases hi : goParseIntChars 32 s.data with
    | ok i =>
      rw [hi] at h; dsimp only at h; cases h
      have hf := goParseIntChars_fits _ _ _ hi
      simp only [valFits, decide_eq_true_eq]
      simpa using hf
    | error e => rw [hi] at h; dsimp only at h; exact absurd h (by simp)
  case int64 =>
    simp only [ParseString, goParseInt, goParseDuration] at h
    cases hi : goParseIntChars 64 s.data with
    | ok i =>
      rw [hi] at h; dsimp only at h; cases h
      have hf := goParseIntChars_fits _ _ _ hi
      simp only [valFits, decide_eq_true_eq]
      simpa using hf
    | error e =>
      rw [hi] at h; dsimp only at h
      cases hd : goParseDurationChars s.data with
      | ok d =>
        rw [hd] at h; dsimp only at h; cases h
        have hf := goParseDurationChars_fits _ _ hd
        simp only [valFits, decide_eq_true_eq]
        simpa using hf
      | error e2 => rw [hd] at h; dsimp only at h; exact absurd h (by simp)
  case uint =>
    simp only [ParseString, goParseUint, GoKind.uintBits] at h
    cases hn : goParseUintChars 64 s.data with
    | ok n =>
      rw [hn] at h; dsimp only at h; cases h
      have hf := goParseUintChars_fits _ _ _ hn
      simp only [valFits, decide_eq_true_eq]
      simpa using hf
    | error e => rw [hn] at h; dsimp only at h; exact absurd h (by simp)
  case uint8 =>
    simp only [ParseString, goParseUint, GoKind.uintBits] at h
    cases hn : goParseUintChars 8 s.data with
    | ok n =>
      rw [hn] at h; dsimp only at h; cases h
      have hf := goParseUintChars_fits _ _ _ hn
      simp only [valFits, decide_eq_true_eq]
      simpa using hf
    | error e => rw [hn] at h; dsimp only at h; exact absurd h (by simp)
  case uint16 =>
    simp only [ParseString, goParseUint, GoKind.uintBits] at h
    cases hn : goParseUintChars 16 s.data with
    | ok n =>
      rw [hn] at h; dsimp only at h; cases h
      have hf := goParseUintChars_fits _ _ _ hn
      simp only [valFits, decide_eq_true_eq]
      simpa using hf
    | error e => rw [hn] at h; dsimp only at h; exact absurd h (by simp)
  case uint32 =>
    simp only [ParseString, goParseUint, GoKind.uintBits] at h
    cases hn : goParseUintChars 32 s.data with
    | ok n =>
      rw [hn] at h; dsimp only at h; cases h
      have hf := goParseUintChars_fits _ _ _ hn
      simp only [valFits, decide_eq_true_eq]
      simpa using hf
    | error e => rw [hn] at h; dsimp only at h; exact absurd h (by simp)
  case uint64 =>
    simp only [ParseString, goParseUint, GoKind.uintBits] at h
    cases hn : goParseUintChars 64 s.data with
    | ok n =>
      rw [hn] at h; dsimp only at h; cases h
      have hf := goParseUintChars_fits _ _ _ hn
      simp only [valFits, decide_eq_true_eq]
      simpa using hf
    | error e => rw [hn] at h; dsimp only at h; exact absurd h (by simp)
  case slice =>
    simp only [ParseString] at h
    cases hl : jsonDecodeStringList s with
    | ok l => rw [hl] at h; dsimp only at h; cases h; rfl
    | error e => rw [hl] at h; dsimp only at h; exact absurd h (by simp)

theorem storeGet_append_left (l1 l2 : List (String × GoValue)) (d : String) (v : GoValue)
    (h : storeGet l1 d = some v) : storeGet (l1 ++ l2) d = some v := by
  induction l1 with
  | nil => simp [storeGet] at h
  | cons p rest ih =>
    by_cases hp : p.1 = d
    · simpa [storeGet, List.find?_cons, hp] using h
    · have h' : storeGet rest d = some v := by simpa [storeGet, List.find?_cons, hp] using h
      simpa [storeGet, List.find?_cons, hp] using ih h'

theorem storeGet_append_right (l1 l2 : List (String × GoValue)) (d : String)
    (h : storeGet l1 d = none) : storeGet (l1 ++ l2) d = storeGet l2 d := by
  induction l1 with
  | nil => rfl
  | cons p rest ih =>
    by_cases hp : p.1 = d
    · simp [storeGet, List.find?_cons, hp] at h
    · have h' : storeGet rest d = none := by simpa [storeGet, List.find?_cons, hp] using h
      simpa [storeGet, List.find?_cons, hp] using ih h'

theorem storeGet_map_const_mem (ds : List String) (v : GoValue) (d : String) (h : d ∈ ds) :
    storeGet (ds.map (fun d' => (d', v))) d = some v := by
  induction ds with
  | nil => exact absurd h (List.not_mem_nil d)
  | cons d0 rest ih =>
    by_cases hd : d0 = d
    · simp [storeGet, List.find?_cons, hd]
    · have hm : d ∈ rest := by
        rcases List.mem_cons.mp h with rfl | hm
        · exact absurd rfl hd
        · exact hm
      simpa [storeGet, List.find?_cons, hd] using ih hm

theorem storeGet_map_const_not_mem (ds : List String) (v : GoValue) (d : String)
    (h : d ∉ ds) : storeGet (ds.map (fun d' => (d', v))) d = none := by
  induction ds with
  | nil => rfl
  | cons d0 rest ih =>
    have hd : d0 ≠ d := fun hc => h (hc ▸ List.mem_cons_self d0 rest)
    have hm : d ∉ rest := fun hc => h (List.mem_cons_of_mem d0 hc)
    simpa [storeGet, List.find?_cons, hd] using ih hm

theorem mem_allDests (S : List FlagEntry) (e : FlagEntry) (d : String)
    (he : e ∈ S) (hd : d ∈ e.dests) : d ∈ allDests S := by
  induction S with
  | nil => exact absurd he (List.not_mem_nil e)
  | cons e0 rest ih =>
    rcases List.mem_cons.mp he with rfl | hm
    · exact List.mem_append.mpr (Or.inl hd)
    · exact List.mem_append.mpr (Or.inr (ih hm))

theorem dests_nodup (S : List FlagEntry) (e : FlagEntry) (hn : (allDests S).Nodup)
    (he : e ∈ S) : e.dests.Nodup := by
  induction S with
  | nil => exact absurd he (List.not_mem_nil e)
  | cons e0 rest ih =>
    have hn' := List.nodup_append.mp hn
    rcases List.mem_cons.mp he with rfl | hm
    · exact hn'.1
    · exact ih hn'.2.1 hm

theorem dests_disjoint (S : List FlagEntry) (e e' : FlagEntry) (hn : (allDests S).Nodup)
    (he : e ∈ S) (he' : e' ∈ S) (hne : e ≠ e') (d : String) (hd : d ∈ e.dests) :
    d ∉ e'.dests := by
  induction S with
  | nil => exact absurd he (List.not_mem_nil e)
  | cons e0 rest ih =>
    have hn' := List.nodup_append.mp hn
    rcases List.mem_cons.mp he with rfl | hm
    · rcases List.mem_cons.mp he' with rfl | hm'
      · exact absurd rfl hne
      · exact fun hc => hn'.2.2 hd (mem_allDests rest e' d hm' hc)
    · rcases List.mem_cons.mp he' with rfl | hm'
      · exact fun hc => hn'.2.2 hc (mem_allDests rest e d hm hd)
      · exact ih hn'.2.1 hm hm'

theorem zeroStore_get (S : List FlagEntry) (e : FlagEntry) (d : String)
    (hn : (allDests S).Nodup) (he : e ∈ S) (hd : d ∈ e.dests) :
    storeGet (zeroStore S) d = some (zeroValue e.kind) := by
  induction S with
  | nil => exact absurd he (List.not_mem_nil e)
  | cons e0 rest ih =>
    have hn' := List.nodup_append.mp hn
    rcases List.mem_cons.mp he with rfl | hm
    · exact storeGet_append_left _ _ _ _ (storeGet_map_const_mem e.dests _ d hd)
    · have hnot : d ∉ e0.dests := fun hc => hn'.2.2 hc (mem_allDests rest e d hm hd)
      rw [show zeroStore (e0 :: rest)
          = e0.dests.map (fun d' => (d', zeroValue e0.kind)) ++ zeroStore rest from rfl]
      rw [storeGet_append_right _ _ _ (storeGet_map_const_not_mem e0.dests _ d hnot)]
      exact ih hn'.2.1 hm

theorem zeroStore_synced (S : List FlagEntry) (hn : (allDests S).Nodup) :
    Synced S (zeroStore S) := by
  intro e he
  exact ⟨zeroValue e.kind, valFits_zeroValue e.kind,
    fun d hd => zeroStore_get S e d hn he hd⟩

theorem findFlag_self (S : List FlagEntry) (e : FlagEntry)
    (hn : (S.map (·.name)).Nodup) (he : e ∈ S) : findFlag S e.name = some e := by
  induction S with
  | nil => exact absurd he (List.not_mem_nil e)
  | cons e0 rest ih =>
    have hn' := List.nodup_cons.mp hn
    rcases List.mem_cons.mp he with rfl | hm
    · simp [findFlag, List.find?_cons]
    · have hne : e0.name ≠ e.name := fun hc => by
        have hmm : e.name ∈ rest.map (·.name) := List.mem_map_of_mem (·.name) hm
        rw [← hc] at hmm
        exact hn'.1 hmm
      simpa [findFlag, List.find?_cons, hne] using ih hn'.2 hm

theorem findFlag_mem (S : List FlagEntry) (name : String) (e : FlagEntry)
    (h : findFlag S name = some e) : e ∈ S :=
  List.mem_of_find?_eq_some h

theorem setEntry_synced (S : List FlagEntry) (e : FlagEntry) (value : String)
    (st st2 : List (String × GoValue)) (hwf : SurfaceWF S) (he : e ∈ S)
    (hsync : Synced S st) (h : setEntry e value st = .ok st2) : Synced S st2 := by
  unfold setEntry at h
  cases hp : ParseString e.kind value with
  | error msg => rw [hp] at h; exact absurd h (by simp)
  | ok v =>
    rw [hp] at h; dsimp only at h; cases h
    intro e' he'
    by_cases hee : e' = e
    · subst hee
      refine ⟨v, parseString_fits _ _ _ hp, fun d hd => ?_⟩
      rcases hsync e' he' with ⟨v0, _, hv0⟩
      exact storeGet_setDests_mem e'.dests v st d
        (dests_nodup S e' hwf.2.1 he') hd ⟨v0, hv0 d hd⟩
    · rcases hsync e' he' with ⟨v0, hfit0, hv0⟩
      refine ⟨v0, hfit0, fun d hd => ?_⟩
      have hnot : d ∉ e.dests := dests_disjoint S e' e hwf.2.1 he' he hee d hd
      rw [show (e.dests.foldl (fun acc d => storeSet acc d v) st)
          = setDests e.dests v st from rfl]
      rw [storeGet_setDests_not_mem e.dests v st d hnot]
      exact hv0 d hd

theorem goFlagSet_synced (S : List FlagEntry) (st : List (String × GoValue))
    (nm : List Char) (val : Option String) (rest : List String)
    (st2 : List (String × GoValue)) (rest2 : List String)
    (hwf : SurfaceWF S) (hsync : Synced S st)
    (h : goFlagSet S st nm val rest = .cont st2 rest2) : Synced S st2 := by
  unfold goFlagSet at h
  cases hf : findFlag S ⟨nm⟩ with
  | none =>
    rw [hf] at h; dsimp only at h
    split_ifs at h
  | some e =>
    rw [hf] at h; dsimp only at h
    have he : e ∈ S := findFlag_mem S ⟨nm⟩ e hf
    by_cases hk : e.kind = .bool
    · rw [if_pos hk] at h
      cases val with
      | some v =>
        dsimp only at h
        cases hs : setEntry e v st with
        | error msg => rw [hs] at h; simp at h
        | ok stx =>
          rw [hs] at h; dsimp only at h; cases h
          exact setEntry_synced S e v st _ hwf he hsync hs
      | none =>
        dsimp only at h
        cases hs : setEntry e "true" st with
        | error msg => rw [hs] at h; simp at h
        | ok stx =>
          rw [hs] at h; dsimp only at h; cases h
          exact setEntry_synced S e "true" st _ hwf he hsync hs
    · rw [if_neg hk] at h
      cases val with
      | some v =>
        dsimp only at h
        cases hs : setEntry e v st with
        | error msg => rw [hs] at h; simp at h
        | ok stx =>
          rw [hs] at h; dsimp only at h; cases h
          exact setEntry_synced S e v st _ hwf he hsync hs
      | none =>
        dsimp only at h
        cases rest with
        | nil => simp at h
        | cons v rest0 =>
          dsimp only at h
          cases hs : setEntry e v st with
          | error msg => rw [hs] at h; simp at h
          | ok stx =>
            rw [hs] at h; dsimp only at h; cases h
            exact setEntry_synced S e v st _ hwf he hsync hs

theorem goFlagParseName_synced (S : List FlagEntry) (st : List (String × GoValue))
    (name : List Char) (rest : List String)
    (st2 : List (String × GoValue)) (rest2 : List String)
    (hwf : SurfaceWF S) (hsync : Synced S st)
    (h : goFlagParseName S st name rest = .cont st2 rest2) : Synced S st2 := by
  unfold goFlagParseName at h
  cases name with
  | nil => simp at h
  | cons n0 ntail =>
    dsimp only at h
    split_ifs at h with hbad
    rcases hsp : splitFirst '=' ntail with ⟨pre, vo⟩
    rw [hsp] at h
    cases vo with
    | none =>
      dsimp only at h
      exact goFlagSet_synced S st _ none rest st2 rest2 hwf hsync h
    | some v =>
      dsimp only at h
      exact goFlagSet_synced S st _ (some ⟨v⟩) rest st2 rest2 hwf hsync h

theorem flagStep_synced (S : List FlagEntry) (st : List (String × GoValue))
    (s : String) (rest : List String)
    (st2 : List (String × GoValue)) (rest2 : List String)
    (hwf : SurfaceWF S) (hsync : Synced S st)
    (h : flagStep S st s rest = .cont st2 rest2) : Synced S st2 := by
  unfold flagStep at h
  split at h
  next c1 cs1 heq =>
    split_ifs at h with h1 h2
    · exact goFlagParseName_synced S st cs1 rest st2 rest2 hwf hsync h
    · exact goFlagParseName_synced S st (c1 :: cs1) rest st2 rest2 hwf hsync h
  next => simp at h

theorem goFlagParseGo_synced (S : List FlagEntry) (hwf : SurfaceWF S) :
    ∀ (fuel : Nat) (st : List (String × GoValue)) (args : List String)
      (st2 : List (String × GoValue)) (rest : List String),
      Synced S st → goFlagParseGo S fuel st args = .ok (st2, rest) → Synced S st2 := by
  intro fuel
  induction fuel with
  | zero =>
    intro st args st2 rest hs h
    unfold goFlagParseGo at h
    cases h
    exact hs
  | succ f ih =>
    intro st args st2 rest hs h
    cases args with
    | nil =>
      unfold goFlagParseGo at h
      cases h
      exact hs
    | cons s rest0 =>
      unfold goFlagParseGo at h
      cases hstep : flagStep S st s rest0 with
      | stop a =>
        rw [hstep] at h; dsimp only at h; cases h; exact hs
      | fail m => rw [hstep] at h; simp at h
      | cont stx restx =>
        rw [hstep] at h; dsimp only at h
        exact ih stx restx st2 rest
          (flagStep_synced S st s rest0 stx restx hwf hs hstep) h

theorem string_eta (s : String) : (⟨s.data⟩ : String) = s := rfl

theorem flagStep_plain_token (S : List FlagEntry) (st0 : List (String × GoValue))
    (name : String) (rest : List String) (hok : FlagNameOk name) :
    flagStep S st0 ("--" ++ name) rest = goFlagSet S st0 name.data none rest := by
  have hdata : ("--" ++ name).data = '-' :: '-' :: name.data := by
    simp [String.data_append]
  unfold flagStep
  rw [hdata]
  split
  next c1 cs1 heq =>
    injection heq with h1 h2
    injection h2 with h3 h4
    subst h3 h4
    rw [if_pos rfl, if_neg hok.1]
    unfold goFlagParseName
    cases hd : name.data with
    | nil => exact absurd hd hok.1
    | cons n0 nt =>
      dsimp only
      have hn0 : ¬(n0 = '-' ∨ n0 = '=') := by
        rintro (h | h)
        · exact hok.2.1 (by rw [hd]; simpa using h)
        · exact hok.2.2 n0 (by rw [hd]; exact List.mem_cons_self n0 nt) h
      rw [if_neg hn0]
      have hnt : '=' ∉ nt := fun hc =>
        hok.2.2 '=' (by rw [hd]; exact List.mem_cons_of_mem n0 hc) rfl
      rw [splitFirst_not_mem '=' nt hnt]
  next hne2 => exact absurd rfl (hne2 '-' name.data)

theorem flagStep_eq_token (S : List FlagEntry) (st0 : List (String × GoValue))
    (name : String) (sfx : List Char) (rest : List String) (hok : FlagNameOk name) :
    flagStep S st0 ("--" ++ name ++ ⟨'=' :: sfx⟩) rest
      = goFlagSet S st0 name.data (some ⟨sfx⟩) rest := by
  have hdata : ("--" ++ name ++ (⟨'=' :: sfx⟩ : String)).data
      = '-' :: '-' :: (name.data ++ '=' :: sfx) := by
    simp [String.data_append]
  unfold flagStep
  rw [hdata]
  split
  next c1 cs1 heq =>
    injection heq with h1 h2
    injection h2 with h3 h4
    subst h3 h4
    rw [if_pos rfl, if_neg (by simp)]
    unfold goFlagParseName
    cases hd : name.data with
    | nil => exact absurd hd hok.1
    | cons n0 nt =>
      simp only [List.cons_append]
      have hn0 : ¬(n0 = '-' ∨ n0 = '=') := by
        rintro (h | h)
        · exact hok.2.1 (by rw [hd]; simpa using h)
        · exact hok.2.2 n0 (by rw [hd]; exact List.mem_cons_self n0 nt) h
      rw [if_neg hn0]
      have hnt : '=' ∉ nt := fun hc =>
        hok.2.2 '=' (by rw [hd]; exact List.mem_cons_of_mem n0 hc) rfl
      rw [splitFirst_first '=' nt sfx hnt]
  next hne2 => exact absurd rfl (hne2 '-' (name.data ++ '=' :: sfx))

theorem goFlagSet_found_some (S : List FlagEntry) (st0 : List (String × GoValue))
    (e : FlagEntry) (v : String) (rest : List String) (st1 : List (String × GoValue))
    (hf : findFlag S e.name = some e) (hs : setEntry e v st0 = .ok st1) :
    goFlagSet S st0 e.name.data (some v) rest = .cont st1 rest := by
  unfold goFlagSet
  rw [string_eta]
  simp only [hf]
  by_cases hk : e.kind = .bool
  · rw [if_pos hk]
    simp only [hs]
  · rw [if_neg hk]
    simp only [hs]

theorem goFlagSet_found_none (S : List FlagEntry) (st0 : List (String × GoValue))
    (e : FlagEntry) (v0 : String) (rest0 : List String) (st1 : List (String × GoValue))
    (hf : findFlag S e.name = some e) (hk : ¬e.kind = .bool)
    (hs : setEntry e v0 st0 = .ok st1) :
    goFlagSet S st0 e.name.data none (v0 :: rest0) = .cont st1 rest0 := by
  unfold goFlagSet
  rw [string_eta]
  simp only [hf]
  rw [if_neg hk]
  simp only [hs]

theorem goFlagParseGo_cons (S : List FlagEntry) (f : Nat) (st0 : List (String × GoValue))
    (tok : String) (toks : List String) :
    goFlagParseGo S (f + 1) st0 (tok :: toks) =
      match flagStep S st0 tok toks with
      | .stop args => .ok (st0, args)
      | .fail msg => .error msg
      | .cont st2 rest2 => goFlagParseGo S f st2 rest2 := rfl

theorem stringify_reparse_aux (S : List FlagEntry) (st : List (String × GoValue))
    (hwf : SurfaceWF S) (hsync : Synced S st) :
    ∀ (E : List FlagEntry), ∀ (fuel : Nat) (st0 : List (String × GoValue)),
      (∀ x ∈ E, x ∈ S) → (allDests E).Nodup →
      (∀ x ∈ E, ∀ d ∈ x.dests, storeGet st0 d = some (zeroValue x.kind)) →
      (Stringify E st).length < fuel →
      ∃ st2, goFlagParseGo S fuel st0 (Stringify E st) = .ok (st2, []) ∧
        (∀ x ∈ E, ∀ d ∈ x.dests, storeGet st2 d = storeGet st d) ∧
        (∀ d, d ∉ allDests E → storeGet st2 d = storeGet st0 d) := by
  intro E
  induction E with
  | nil =>
    intro fuel st0 _ _ _ hfuel
    cases fuel with
    | zero => exact absurd hfuel (by simp [Stringify])
    | succ f =>
      refine ⟨st0, rfl, ?_, ?_⟩
      · intro x hx
        exact absurd hx (List.not_mem_nil x)
      · intro d _
        rfl
  | cons e E' ih =>
    intro fuel st0 hmem hnd hz hfuel
    have heS : e ∈ S := hmem e (List.mem_cons_self e E')
    have hmem' : ∀ x ∈ E', x ∈ S := fun x hx => hmem x (List.mem_cons_of_mem e hx)
    have hndsplit : (e.dests ++ allDests E').Nodup := hnd
    have hndE := List.nodup_append.mp hndsplit
    have hdisj : e.dests.Disjoint (allDests E') := hndE.2.2
    have hz_head := hz e (List.mem_cons_self e E')
    have hz_tail : ∀ x ∈ E', ∀ d ∈ x.dests, storeGet st0 d = some (zeroValue x.kind) :=
      fun x hx => hz x (List.mem_cons_of_mem e hx)
    have hnodup_e : e.dests.Nodup := dests_nodup S e hwf.2.1 heS
    rcases hsync e heS with ⟨v, hvfits, hvst⟩
    rcases hwf.2.2 e heS with ⟨hne, hnameok⟩
    have hfind : findFlag S e.name = some e := findFlag_self S e hwf.1 heS
    cases hds : e.dests with
    | nil => exact absurd hds hne
    | cons d0 ds2 =>
      have hd0 : d0 ∈ e.dests := by rw [hds]; exact List.mem_cons_self d0 ds2
      have hst_d0 : storeGet st d0 = some v := hvst d0 hd0
      by_cases hk : e.kind = .bool
      · rw [hk] at hvfits
        cases v with
        | str s => simp [valFits] at hvfits
        | intv i => simp [valFits] at hvfits
        | uintv n => simp [valFits] at hvfits
        | strList l => simp [valFits] at hvfits
        | bool b =>
          cases b with
          | false =>
            have hT : stringifyEntry e st = [] := by
              simp [stringifyEntry, hds, hst_d0, hk]
            have hTok : Stringify (e :: E') st = Stringify E' st := by
              rw [show Stringify (e :: E') st
                  = stringifyEntry e st ++ Stringify E' st from rfl, hT]
              rfl
            have hfuel2 : (Stringify E' st).length < fuel := by
              rw [hTok] at hfuel
              exact hfuel
            rcases ih fuel st0 hmem' hndE.2.1 hz_tail hfuel2 with ⟨st2, hrun, hA, hB⟩
            refine ⟨st2, by rw [hTok]; exact hrun, ?_, ?_⟩
            · intro x hx d hd
              rcases List.mem_cons.mp hx with rfl | hx2
              · have hdn : d ∉ allDests E' := fun hc => hdisj hd hc
                rw [hB d hdn, hz_head d hd, hvst d hd, hk]
                rfl
              · exact hA x hx2 d hd
            · intro d hdn
              have hdn2 : d ∉ allDests E' := fun hc =>
                hdn (List.mem_append.mpr (Or.inr hc))
              exact hB d hdn2
          | true =>
            have hT : stringifyEntry e st = ["--" ++ e.name ++ "=true"] := by
              simp [stringifyEntry, hds, hst_d0, hk]
            have hTok : Stringify (e :: E') st
                = ("--" ++ e.name ++ "=true") :: Stringify E' st := by
              rw [show Stringify (e :: E') st
                  = stringifyEntry e st ++ Stringify E' st from rfl, hT]
              rfl
            cases fuel with
            | zero => exact absurd hfuel (by simp)
            | succ f =>
              have hfuel2 : (Stringify E' st).length < f := by
                rw [hTok] at hfuel
                simp only [List.length_cons] at hfuel
                omega
              have hpt : ParseString e.kind "true" = .ok (.bool true) := by
                rw [hk]
                exact parseString_stringify_roundtrip .bool (.bool true) rfl
              have hs1 : setEntry e "true" st0
                  = .ok (setDests e.dests (.bool true) st0) :=
                setEntry_eq_setDests e "true" st0 (.bool true) hpt
              have hstep : flagStep S st0 ("--" ++ e.name ++ "=true") (Stringify E' st)
                  = .cont (setDests e.dests (.bool true) st0) (Stringify E' st) := by
                rw [show ("--" ++ e.name ++ "=true")
                    = ("--" ++ e.name ++ (⟨'=' :: "true".data⟩ : String)) from rfl]
                rw [flagStep_eq_token S st0 e.name ("true".data) (Stringify E' st) hnameok]
                rw [show ((⟨"true".data⟩ : String)) = "true" from rfl]
                exact goFlagSet_found_some S st0 e "true" (Stringify E' st) _ hfind hs1
              have hz2 : ∀ x ∈ E', ∀ d ∈ x.dests,
                  storeGet (setDests e.dests (.bool true) st0) d
                    = some (zeroValue x.kind) := by
                intro x hx d hd
                have hdn : d ∉ e.dests := fun hc => hdisj hc (mem_allDests E' x d hx hd)
                rw [storeGet_setDests_not_mem e.dests (.bool true) st0 d hdn]
                exact hz_tail x hx d hd
              rcases ih f (setDests e.dests (.bool true) st0) hmem' hndE.2.1 hz2 hfuel2
                with ⟨st2, hrun, hA, hB⟩
              have hrunfull : goFlagParseGo S (f + 1) st0 (Stringify (e :: E') st)
                  = .ok (st2, []) := by
                rw [hTok, goFlagParseGo_cons, hstep]
                exact hrun
              refine ⟨st2, hrunfull, ?_, ?_⟩
              · intro x hx d hd
                rcases List.mem_cons.mp hx with rfl | hx2
                · have hdn : d ∉ allDests E' := fun hc => hdisj hd hc
                  rw [hB d hdn,
                    storeGet_setDests_mem x.dests (.bool true) st0 d hnodup_e hd
                      ⟨zeroValue x.kind, hz_head d hd⟩,
                    hvst d hd]
                · exact hA x hx2 d hd
              · intro d hdn
                have hd1 : d ∉ allDests E' := fun hc =>
                  hdn (List.mem_append.mpr (Or.inr hc))
                have hd2 : d ∉ e.dests := fun hc =>
                  hdn (List.mem_append.mpr (Or.inl hc))
                rw [hB d hd1, storeGet_setDests_not_mem e.dests (.bool true) st0 d hd2]
      · have hT : stringifyEntry e st = ["--" ++ e.name, StringifyValue v] := by
          simp [stringifyEntry, hds, hst_d0, hk]
        have hTok : Stringify (e :: E') st
            = ("--" ++ e.name) :: StringifyValue v :: Stringify E' st := by
          rw [show Stringify (e :: E') st
              = stringifyEntry e st ++ Stringify E' st from rfl, hT]
          rfl
        cases fuel with
        | zero => exact absurd hfuel (by simp)
        | succ f =>
          have hfuel2 : (Stringify E' st).length < f := by
            rw [hTok] at hfuel
            simp only [List.length_cons] at hfuel
            omega
          have hpv : ParseString e.kind (StringifyValue v) = .ok v :=
            parseString_stringify_roundtrip e.kind v hvfits
          have hs1 : setEntry e (StringifyValue v) st0 = .ok (setDests e.dests v st0) :=
            setEntry_eq_setDests e (StringifyValue v) st0 v hpv
          have hstep : flagStep S st0 ("--" ++ e.name)
              (StringifyValue v :: Stringify E' st)
              = .cont (setDests e.dests v st0) (Stringify E' st) := by
            rw [flagStep_plain_token S st0 e.name _ hnameok]
            exact goFlagSet_found_none S st0 e (StringifyValue v) (Stringify E' st)
              _ hfind hk hs1
          have hz2 : ∀ x ∈ E', ∀ d ∈ x.dests,
              storeGet (setDests e.dests v st0) d = some (zeroValue x.kind) := by
            intro x hx d hd
            have hdn : d ∉ e.dests := fun hc => hdisj hc (mem_allDests E' x d hx hd)
            rw [storeGet_setDests_not_mem e.dests v st0 d hdn]
            exact hz_tail x hx d hd
          rcases ih f (setDests e.dests v st0) hmem' hndE.2.1 hz2 hfuel2
            with ⟨st2, hrun, hA, hB⟩
          have hrunfull : goFlagParseGo S (f + 1) st0 (Stringify (e :: E') st)
              = .ok (st2, []) := by
            rw [hTok, goFlagParseGo_cons, hstep]
            exact hrun
          refine ⟨st2, hrunfull, ?_, ?_⟩
          · intro x hx d hd
            rcases List.mem_cons.mp hx with rfl | hx2
            · have hdn : d ∉ allDests E' := fun hc => hdisj hd hc
              rw [hB d hdn,
                storeGet_setDests_mem x.dests v st0 d hnodup_e hd
                  ⟨zeroValue x.kind, hz_head d hd⟩,
                hvst d hd]
            · exact hA x hx2 d hd
          · intro d hdn
            have hd1 : d ∉ allDests E' := fun hc =>
              hdn (List.mem_append.mpr (Or.inr hc))
            have hd2 : d ∉ e.dests := fun hc =>
              hdn (List.mem_append.mpr (Or.inl hc))
            rw [hB d hd1, storeGet_setDests_not_mem e.dests v st0 d hd2]

/-- C3: for every well-formed flag surface, after parsing any token list
over the freshly built zero-valued store, emitting the surface's canonical
token list (`Stringify`, which omits boolean flags at their false zero
value) and re-parsing it over a freshly built zero-valued store reproduces
the value of every destination of every bound flag, the omitted false
booleans included (round-trip law). -/
theorem flag_stringify_roundtrip (S : List FlagEntry) (hwf : SurfaceWF S)
    (tokens : List String) (st1 : List (String × GoValue)) (rest : List String)
    (hparse : goFlagParse S (zeroStore S) tokens = .ok (st1, rest)) :
    ∃ st2, goFlagParse S (zeroStore S) (Stringify S st1) = .ok (st2, []) ∧
      ∀ e ∈ S, ∀ d ∈ e.dests, storeGet st2 d = storeGet st1 d := by
  have hsync0 : Synced S (zeroStore S) := zeroStore_synced S hwf.2.1
  have hsync1 : Synced S st1 :=
    goFlagParseGo_synced S hwf (tokens.length + 1) (zeroStore S) tokens st1 rest
      hsync0 hparse
  rcases stringify_reparse_aux S st1 hwf hsync1 S ((Stringify S st1).length + 1)
      (zeroStore S) (fun x hx => hx) hwf.2.1
      (fun x hx d hd => zeroStore_get S x d hwf.2.1 hx hd)
      (Nat.lt_succ_self _) with ⟨st2, hrun, hA, _⟩
  exact ⟨st2, hrun, hA⟩

/-- The `FlagTester` surface of src/flags_test.go: a string, an int and a
bool flag. -/
def c3Surface : List FlagEntry :=
  [⟨"stringflag", .str, ["String"], "A string"⟩,
   ⟨"intflag", .int, ["Int"], "An int"⟩,
   ⟨"boolflag", .bool, ["Bool"], "A bool"⟩]

/-- The token list of `TestFlagStringify` (src/flags_test.go). -/
def c3Tokens : List String :=
  ["--boolflag", "--stringflag", "somestring", "--intflag", "10"]

/-- The store reached by parsing `c3Tokens` over the zero store of
`c3Surface`. -/
def c3Store : List (String × GoValue) :=
  [("String", .str "somestring"), ("Int", .intv 10), ("Bool", .bool true)]

theorem flag_stringify_roundtrip_witness :
    ∃ st2, goFlagParse c3Surface (zeroStore c3Surface) (Stringify c3Surface c3Store)
        = .ok (st2, []) ∧
      ∀ e ∈ c3Surface, ∀ d ∈ e.dests, storeGet st2 d = storeGet c3Store d :=
  flag_stringify_roundtrip c3Surface
    (by simp only [SurfaceWF, FlagNameOk]; decide) c3Tokens c3Store [] (by rfl)
